import Mathlib

/-!
Verification development for the spreadsheet-compressor core
(`src/spreadsheet_compressor/compressor.py`).

The Python source is shallowly embedded below:

* pure helpers (`str.strip`, `int(...)`, `str(...)`) become Lean functions
  over `String`/`Nat`/`Int`; only the ASCII fragment of Python's Unicode
  classification is modelled, which covers every value appearing in the
  analysed behaviours;
* `re.match` is embedded as a small regular-expression engine: a parser from
  the pattern text (the source stores raw pattern strings and hands them to
  `re.match`, so an ill-formed pattern raises `re.error` at match time) into
  an AST, plus a Brzozowski-derivative matcher.  `^` is an assertion holding
  at offset 0 (where `re.match` starts) and `$` holds at the end of the
  subject (the subject is always `str(value).strip()`, which never ends in a
  newline, so the before-trailing-newline case of `$` cannot arise);
* `datetime.strptime(s, fmt)` is embedded as a total boolean matcher
  following CPython's `_strptime` rules for the directives occurring in the
  configured formats (`%Y %m %d %H %M %S %I %p %b %B`, literal text matched
  case-insensitively, whitespace runs in the format matching whitespace runs
  in the subject, whole-string match, calendar validation of the resulting
  date).  A format with an unsupported directive is treated as a non-match,
  which is observationally equal to the source, where the raised
  `ValueError` is swallowed by the surrounding `except ValueError` clause;
* exceptions become `Except` values; a Python value that may be either a
  `(sheet, cell)` pair or a string (the untyped call sites index with
  `x[0]`/`x[1]` and unpack) becomes the sum type `PyRef`;
* the openpyxl collaborators `get_column_letter` /
  `column_index_from_string` (spec section 3: column letters convert
  bidirectionally to a 1-based index; openpyxl accepts 1..18278, i.e. "A"
  to "ZZZ", upper-casing its input) are embedded directly;
* `dict` values keep Python's insertion-order semantics and are embedded as
  association lists with in-place update on existing keys.
-/

set_option maxRecDepth 8000

/-- ASCII whitespace, the characters recognised by `str.strip()` /
Python's regex `\s` on the ASCII plane. -/
def pyIsSpace (c : Char) : Bool :=
  c = ' ' || c = '\t' || c = '\n' || c = '\r' || c = '\x0b' || c = '\x0c'

/-- Embedding of `str.strip()` (ASCII whitespace). -/
def pyStrip (s : String) : String :=
  String.mk (((s.data.dropWhile pyIsSpace).reverse.dropWhile pyIsSpace).reverse)

/-- Embedding of `str.upper()` (ASCII; every string upper-cased by the
source is ASCII). -/
def pyToUpper (s : String) : String :=
  String.mk (s.data.map Char.toUpper)

/-- Embedding of `int(...)` applied to a non-empty string of decimal digits. -/
def digitsToNat (cs : List Char) : Nat :=
  cs.foldl (fun a c => a * 10 + (c.toNat - 48)) 0

/-- Left-to-right effectful map over `Except`, the evaluation order of
Python `sorted` key computation, loops and list comprehensions: the first
raised exception propagates. -/
def pyMapM (f : α → Except Unit β) : List α → Except Unit (List β)
  | [] => .ok []
  | a :: l => do
      let b ← f a
      let r ← pyMapM f l
      .ok (b :: r)

/-- Raw cell values reaching the classifier: `None`, a string, an int, or a
float.  A float is represented by its `str(...)` rendering, which is the only
attribute of the value the source ever consumes. -/
inductive CellValue where
  | none
  | str (s : String)
  | int (n : Int)
  | float (render : String)
deriving DecidableEq, Repr

/-- Embedding of `str(value)`. -/
def py_str : CellValue → String
  | .none => "None"
  | .str s => s
  | .int n => toString n
  | .float r => r

/-! Regular-expression engine (embedding of the `re.match` calls). -/

/-- One member of a character class: a literal character, a range, or one of
the shorthand classes `\d`, `\s` (and their class-internal complements). -/
inductive CItem where
  | ch (c : Char)
  | crange (a b : Char)
  | cdigit
  | cspace
  | cnspace
  | cword
deriving DecidableEq, Repr

/-- Regular-expression AST.  `rbol` / `reol` are the `^` / `$` assertions. -/
inductive RE where
  | rempty
  | reps
  | rcls (neg : Bool) (items : List CItem)
  | rcat (a b : RE)
  | ralt (a b : RE)
  | rstar (a : RE)
  | rbol
  | reol
deriving DecidableEq, Repr

def citemMatch (c : Char) : CItem → Bool
  | .ch a => c = a
  | .crange a b => decide (a ≤ c) && decide (c ≤ b)
  | .cdigit => c.isDigit
  | .cspace => pyIsSpace c
  | .cnspace => !(pyIsSpace c)
  | .cword => c.isAlphanum || c = '_'

def clsMatch (neg : Bool) (items : List CItem) (c : Char) : Bool :=
  let m := items.any (citemMatch c)
  if neg then !m else m

/-- Nullability: can the expression match the empty string here?  `atEnd`
records whether the current position is the end of the subject, which is what
the `$` assertion tests. -/
def REnullable (atEnd : Bool) : RE → Bool
  | .rempty => false
  | .reps => true
  | .rcls _ _ => false
  | .rcat a b => REnullable atEnd a && REnullable atEnd b
  | .ralt a b => REnullable atEnd a || REnullable atEnd b
  | .rstar _ => true
  | .rbol => false
  | .reol => atEnd

def mkalt : RE → RE → RE
  | .rempty, r => r
  | r, .rempty => r
  | a, b => .ralt a b

def mkcat : RE → RE → RE
  | .rempty, _ => .rempty
  | _, .rempty => .rempty
  | .reps, r => r
  | r, .reps => r
  | a, b => .rcat a b

/-- Brzozowski derivative with respect to one character (a position that is
not the end of the subject, hence mid-string nullability in the
concatenation case). -/
def REderiv (c : Char) : RE → RE
  | .rempty => .rempty
  | .reps => .rempty
  | .rcls neg items => if clsMatch neg items c then .reps else .rempty
  | .rcat a b =>
      mkalt (mkcat (REderiv c a) b)
        (if REnullable false a then REderiv c b else .rempty)
  | .ralt a b => mkalt (REderiv c a) (REderiv c b)
  | .rstar a => mkcat (REderiv c a) (.rstar a)
  | .rbol => .rempty
  | .reol => .rempty

/-- Does the expression match some prefix of the subject?  This is the
anchoring behaviour of `re.match`: try nullability at every position,
passing `atEnd` only at the last one. -/
def REmatchFrom : RE → List Char → Bool
  | r, [] => REnullable true r
  | r, c :: cs => REnullable false r || REmatchFrom (REderiv c r) cs

/-- Replace every `^` assertion by a failing expression (used for positions
other than offset 0, where `^` cannot hold outside MULTILINE mode). -/
def killBol : RE → RE
  | .rbol => .rempty
  | .rcat a b => .rcat (killBol a) (killBol b)
  | .ralt a b => .ralt (killBol a) (killBol b)
  | .rstar a => .rstar (killBol a)
  | r => r

/-- Resolve `^` assertions: a `^` in leading position holds (matching starts
at offset 0) and becomes epsilon, any other `^` fails. -/
def delead : RE → RE
  | .rbol => .reps
  | .rcat a b => .rcat (delead a) (killBol b)
  | .ralt a b => .ralt (delead a) (delead b)
  | .rstar a => .rstar (killBol a)
  | r => r

/-! Pattern parser.  It accepts the fragment of Python `re` syntax exercised
by the source's pattern table (literals, escapes, classes with ranges,
groups, alternation, `? * +` and counted repetition, anchors, lazy
quantifier suffixes) and rejects ill-formed patterns the way `re.compile`
raises `re.error` (unbalanced parentheses, unterminated classes, dangling
quantifiers, bad ranges).  Recursion is fuelled; the fuel picked in
`parseRE` strictly dominates the recursion depth for every input. -/

def parseClassItems (fuel : Nat) (cs : List Char) : Except Unit (List CItem × List Char) :=
  match fuel, cs with
  | 0, _ => .error ()
  | _, [] => .error ()
  | _ + 1, ']' :: rest => .ok ([], rest)
  | fuel + 1, '\\' :: e :: rest => do
      let item ← (match e with
        | 'd' => .ok CItem.cdigit
        | 's' => .ok CItem.cspace
        | 'S' => .ok CItem.cnspace
        | 'w' => .ok CItem.cword
        | c => if c.isAlpha || c.isDigit then .error () else .ok (CItem.ch c))
      let r ← parseClassItems fuel rest
      .ok (item :: r.1, r.2)
  | fuel + 1, a :: '-' :: b :: rest =>
      if b = ']' then
        .ok ([CItem.ch a, CItem.ch '-'], rest)
      else if b = '\\' then .error ()
      else if a ≤ b then do
        let r ← parseClassItems fuel rest
        .ok (CItem.crange a b :: r.1, r.2)
      else .error ()
  | fuel + 1, a :: rest => do
      let r ← parseClassItems fuel rest
      .ok (CItem.ch a :: r.1, r.2)

def parseClass (fuel : Nat) (cs : List Char) : Except Unit (RE × List Char) := do
  let p := (match cs with
    | '^' :: rest => (true, rest)
    | _ => (false, cs))
  match p.2 with
  | ']' :: rest => do
      let r ← parseClassItems fuel rest
      .ok (RE.rcls p.1 (CItem.ch ']' :: r.1), r.2)
  | rest => do
      let r ← parseClassItems fuel rest
      .ok (RE.rcls p.1 r.1, r.2)

/-- Parse the inside of a counted repetition after the opening brace:
digits, optionally a comma and more digits, then the closing brace.
Returns `none` when the text is not a valid repetition (Python then treats
the brace as a literal character). -/
def parseRepBounds (cs : List Char) : Option (Nat × Option Nat × List Char) :=
  let ds := cs.takeWhile Char.isDigit
  let rest := cs.drop ds.length
  match rest with
  | '}' :: rest' =>
      if ds.isEmpty then Option.none
      else some (digitsToNat ds, some (digitsToNat ds), rest')
  | ',' :: rest2 =>
      let ds2 := rest2.takeWhile Char.isDigit
      let rest3 := rest2.drop ds2.length
      (match rest3 with
       | '}' :: rest4 =>
           if ds.isEmpty && ds2.isEmpty then Option.none
           else
             some (if ds.isEmpty then 0 else digitsToNat ds,
               if ds2.isEmpty then Option.none else some (digitsToNat ds2), rest4)
       | _ => Option.none)
  | _ => Option.none

def repExact (r : RE) : Nat → RE
  | 0 => .reps
  | n + 1 => mkcat r (repExact r n)

def repUpTo (r : RE) : Nat → RE
  | 0 => .reps
  | n + 1 => mkcat (.ralt .reps r) (repUpTo r n)

def expandRep (r : RE) (lo : Nat) (hi : Option Nat) : Except Unit RE :=
  match hi with
  | Option.none => .ok (mkcat (repExact r lo) (.rstar r))
  | some h =>
      if h < lo then .error ()
      else .ok (mkcat (repExact r lo) (repUpTo r (h - lo)))

/-- Strip the optional lazy-quantifier marker `?` after a quantifier (laziness
does not change whether a match exists). -/
def lazyMark (cs : List Char) : List Char :=
  match cs with
  | '?' :: rest => rest
  | _ => cs

def isQuantHead : List Char → Bool
  | '?' :: _ => true
  | '*' :: _ => true
  | '+' :: _ => true
  | '{' :: rest => (parseRepBounds rest).isSome
  | _ => false

/-- Apply an optional quantifier following an atom; a second quantifier in a
row is the `re.error` "multiple repeat". -/
def parseQuant (r : RE) (cs : List Char) : Except Unit (RE × List Char) :=
  match cs with
  | '?' :: rest =>
      let rest := lazyMark rest
      if isQuantHead rest then .error () else .ok (.ralt .reps r, rest)
  | '*' :: rest =>
      let rest := lazyMark rest
      if isQuantHead rest then .error () else .ok (.rstar r, rest)
  | '+' :: rest =>
      let rest := lazyMark rest
      if isQuantHead rest then .error () else .ok (mkcat r (.rstar r), rest)
  | '{' :: rest =>
      (match parseRepBounds rest with
       | some b => do
           let r' ← expandRep r b.1 b.2.1
           let rest' := lazyMark b.2.2
           if isQuantHead rest' then .error () else .ok (r', rest')
       | Option.none => .ok (r, cs))
  | _ => .ok (r, cs)

mutual

def parseAlt (fuel : Nat) (cs : List Char) : Except Unit (RE × List Char) :=
  match fuel with
  | 0 => .error ()
  | fuel + 1 => do
      let p ← parseSeq fuel cs
      match p.2 with
      | '|' :: rest2 => do
          let q ← parseAlt fuel rest2
          .ok (RE.ralt p.1 q.1, q.2)
      | _ => .ok p

def parseSeq (fuel : Nat) (cs : List Char) : Except Unit (RE × List Char) :=
  match fuel with
  | 0 => .error ()
  | fuel + 1 =>
      match cs with
      | [] => .ok (RE.reps, [])
      | ')' :: _ => .ok (RE.reps, cs)
      | '|' :: _ => .ok (RE.reps, cs)
      | _ => do
          let p ← parsePiece fuel cs
          let q ← parseSeq fuel p.2
          .ok (mkcat p.1 q.1, q.2)

def parsePiece (fuel : Nat) (cs : List Char) : Except Unit (RE × List Char) :=
  match fuel with
  | 0 => .error ()
  | fuel + 1 => do
      let p ← parseAtom fuel cs
      -- a quantifier applied to a bare anchor is the re.error "nothing to
      -- repeat" (CPython rejects the AT items ^ and $ as repeat operands)
      match cs with
      | '^' :: _ => if isQuantHead p.2 then .error () else .ok p
      | '$' :: _ => if isQuantHead p.2 then .error () else .ok p
      | _ => parseQuant p.1 p.2

def parseAtom (fuel : Nat) (cs : List Char) : Except Unit (RE × List Char) :=
  match fuel with
  | 0 => .error ()
  | fuel + 1 =>
      match cs with
      | [] => .error ()
      | '(' :: rest =>
          let rest := (match rest with
            | '?' :: ':' :: r2 => r2
            | _ => rest)
          (do
            let p ← parseAlt fuel rest
            match p.2 with
            | ')' :: rest3 => .ok (p.1, rest3)
            | _ => .error ())
      | '[' :: rest => parseClass fuel rest
      | '^' :: rest => .ok (RE.rbol, rest)
      | '$' :: rest => .ok (RE.reol, rest)
      | '.' :: rest => .ok (RE.rcls true [CItem.ch '\n'], rest)
      | '\\' :: e :: rest =>
          (match e with
            | 'd' => .ok (RE.rcls false [CItem.cdigit], rest)
            | 'D' => .ok (RE.rcls true [CItem.cdigit], rest)
            | 's' => .ok (RE.rcls false [CItem.cspace], rest)
            | 'S' => .ok (RE.rcls true [CItem.cspace], rest)
            | 'w' => .ok (RE.rcls false [CItem.cword], rest)
            | 'W' => .ok (RE.rcls true [CItem.cword], rest)
            | c =>
                if c.isAlpha || c.isDigit then .error ()
                else .ok (RE.rcls false [CItem.ch c], rest))
      | ['\\'] => .error ()
      | '?' :: _ => .error ()
      | '*' :: _ => .error ()
      | '+' :: _ => .error ()
      | '{' :: rest =>
          -- a valid repetition spec at atom position has nothing to repeat
          -- (re.error); an invalid one is a literal brace, as in CPython
          if (parseRepBounds rest).isSome then .error ()
          else .ok (RE.rcls false [CItem.ch '{'], rest)
      | c :: rest => .ok (RE.rcls false [CItem.ch c], rest)

end

/-- Embedding of `re.compile` on the raw pattern string; `.error` is
`re.error`. -/
def parseRE (pat : String) : Except Unit RE := do
  let p ← parseAlt (4 * pat.length + 16) pat.data
  if p.2.isEmpty then .ok p.1 else .error ()

/-- Embedding of `re.match(pattern, s)`, returning whether a match object is
produced, or an error when the pattern is ill-formed. -/
def re_match (pat : String) (s : String) : Except Unit Bool :=
  (parseRE pat).map (fun r => REmatchFrom (delead r) s.data)

/-! Embedding of `datetime.strptime(value_str, fmt)` as a boolean matcher. -/

/-- Format tokens: a literal character, a run of whitespace (CPython rewrites
whitespace runs in the format to `\s+`), or one of the supported
directives. -/
inductive FTok where
  | lit (c : Char)
  | ws
  | dirY
  | dirm
  | dird
  | dirH
  | dirM
  | dirS
  | dirI
  | dirp
  | dirb
  | dirB
deriving DecidableEq, Repr

def fmtTokenize : List Char → Option (List FTok)
  | [] => some []
  | '%' :: c :: rest => do
      let t ← (match c with
        | 'Y' => some FTok.dirY
        | 'm' => some FTok.dirm
        | 'd' => some FTok.dird
        | 'H' => some FTok.dirH
        | 'M' => some FTok.dirM
        | 'S' => some FTok.dirS
        | 'I' => some FTok.dirI
        | 'p' => some FTok.dirp
        | 'b' => some FTok.dirb
        | 'B' => some FTok.dirB
        | '%' => some (FTok.lit '%')
        | _ => Option.none)
      let ts ← fmtTokenize rest
      some (t :: ts)
  | ['%'] => Option.none
  | c :: rest => do
      let ts ← fmtTokenize rest
      if pyIsSpace c then
        some (FTok.ws :: ts)
      else
        some (FTok.lit c :: ts)

/-- Collapse adjacent whitespace tokens (a whitespace run in the format is
one `\s+`). -/
def fmtSquash : List FTok → List FTok
  | [] => []
  | t :: ts =>
      match t, fmtSquash ts with
      | FTok.ws, FTok.ws :: rest => FTok.ws :: rest
      | _, rest => t :: rest

/-- Date components extracted while matching (year, month, day); other
directives consume input without contributing to calendar validation. -/
structure StDate where
  y : Option Nat
  m : Option Nat
  d : Option Nat
deriving DecidableEq, Repr

def stSetY (st : StDate) (v : Nat) : StDate := ⟨some v, st.m, st.d⟩
def stSetM (st : StDate) (v : Nat) : StDate := ⟨st.y, some v, st.d⟩
def stSetD (st : StDate) (v : Nat) : StDate := ⟨st.y, st.m, some v⟩

def digitVal (c : Char) : Nat := c.toNat - 48

def isLeap (y : Nat) : Bool := (y % 4 = 0 && y % 100 ≠ 0) || y % 400 = 0

def daysInMonth (y m : Nat) : Nat :=
  if m = 2 then (if isLeap y then 29 else 28)
  else if m = 4 || m = 6 || m = 9 || m = 11 then 30
  else 31

/-- Calendar validation performed by `datetime.date(year, month, day)` after
a successful regex match (defaults 1900-1-1 as in `_strptime`). -/
def dateOk (st : StDate) : Bool :=
  let y := st.y.getD 1900
  let m := st.m.getD 1
  let d := st.d.getD 1
  decide (1 ≤ y ∧ y ≤ 9999 ∧ d ≤ daysInMonth y m)

/-- Case-insensitive consumption of a (lowercase) name. -/
def dropCI : List Char → List Char → Option (List Char)
  | [], cs => some cs
  | n :: ns, c :: cs => if c.toLower = n then dropCI ns cs else Option.none
  | _ :: _, [] => Option.none

def monthAbbrs : List String :=
  ["jan", "feb", "mar", "apr", "may", "jun", "jul", "aug", "sep", "oct", "nov", "dec"]

def monthFulls : List String :=
  ["january", "february", "march", "april", "may", "june", "july", "august",
   "september", "october", "november", "december"]

/-- Two-digit acceptance predicates mirroring the `_strptime` directive
regexes (`%m`: `1[0-2]|0[1-9]|[1-9]`, `%d`: `3[01]|[12]\d|0[1-9]|[1-9]`,
`%H`: `2[0-3]|[0-1]\d|\d`, `%M`: `[0-5]\d|\d`, `%S`: `6[0-1]|[0-5]\d|\d`). -/
def twoOk : FTok → Char → Nat → Bool
  | .dirm, a, v => decide ((10 ≤ v ∧ v ≤ 12) ∨ (a = '0' ∧ 1 ≤ v))
  | .dird, a, v => decide ((10 ≤ v ∧ v ≤ 31) ∨ (a = '0' ∧ 1 ≤ v))
  | .dirI, a, v => decide ((10 ≤ v ∧ v ≤ 12) ∨ (a = '0' ∧ 1 ≤ v))
  | .dirH, _, v => decide (v ≤ 23)
  | .dirM, _, v => decide (v ≤ 59)
  | .dirS, _, v => decide (v ≤ 61)
  | _, _, _ => false

def oneOk : FTok → Nat → Bool
  | .dirm, v => decide (1 ≤ v)
  | .dird, v => decide (1 ≤ v)
  | .dirI, v => decide (1 ≤ v)
  | .dirH, _ => true
  | .dirM, _ => true
  | .dirS, _ => true
  | _, _ => false

def stApply (t : FTok) (st : StDate) (v : Nat) : StDate :=
  match t with
  | .dirm => stSetM st v
  | .dird => stSetD st v
  | _ => st

mutual

/-- Does some parse of the format tokens consume the whole subject and yield
a calendar-valid date?  Numeric directives try the two-digit and the
one-digit reading (the overall `_strptime` regex backtracks between the
alternatives of a directive).  The recursion is fuelled so that it stays
kernel-reducible; `strptime_ok` supplies fuel strictly dominating the
recursion depth. -/
def stOKFrom (fuel : Nat) : List FTok → List Char → StDate → Bool :=
  match fuel with
  | 0 => fun _ _ _ => false
  | fuel + 1 => fun ts0 cs0 st0 =>
    match ts0, cs0, st0 with
    | [], cs, st => cs.isEmpty && dateOk st
    | FTok.lit c :: ts, c' :: rest, st =>
        (c.toLower = c'.toLower) && stOKFrom fuel ts rest st
    | FTok.lit _ :: _, [], _ => false
    | FTok.ws :: ts, c :: rest, st =>
        pyIsSpace c && stWsLoop fuel ts rest st
    | FTok.ws :: _, [], _ => false
    | FTok.dirY :: ts, a :: b :: c :: d :: rest, st =>
        (a.isDigit && b.isDigit && c.isDigit && d.isDigit) &&
          stOKFrom fuel ts rest
            (stSetY st (digitVal a * 1000 + digitVal b * 100 + digitVal c * 10 + digitVal d))
    | FTok.dirY :: _, _, _ => false
    | FTok.dirp :: ts, cs, st =>
        (match dropCI ['a', 'm'] cs with
         | some rest => stOKFrom fuel ts rest st
         | Option.none => false) ||
        (match dropCI ['p', 'm'] cs with
         | some rest => stOKFrom fuel ts rest st
         | Option.none => false)
    | FTok.dirb :: ts, cs, st => stMonth fuel monthAbbrs 1 ts cs st
    | FTok.dirB :: ts, cs, st => stMonth fuel monthFulls 1 ts cs st
    | t :: ts, a :: b :: rest, st =>
        (a.isDigit && b.isDigit && twoOk t a (digitVal a * 10 + digitVal b) &&
          stOKFrom fuel ts rest (stApply t st (digitVal a * 10 + digitVal b))) ||
        (a.isDigit && oneOk t (digitVal a) &&
          stOKFrom fuel ts (b :: rest) (stApply t st (digitVal a)))
    | t :: ts, [a], st =>
        a.isDigit && oneOk t (digitVal a) &&
          stOKFrom fuel ts [] (stApply t st (digitVal a))
    | _ :: _, [], _ => false

/-- Try each month name in turn (case-insensitively). -/
def stMonth (fuel : Nat) : List String → Nat → List FTok → List Char → StDate → Bool :=
  match fuel with
  | 0 => fun _ _ _ _ _ => false
  | fuel + 1 => fun ns0 idx0 ts0 cs0 st0 =>
    match ns0, idx0, ts0, cs0, st0 with
    | [], _, _, _, _ => false
    | n :: ns, idx, ts, cs, st =>
        (match dropCI n.data cs with
         | some rest => stOKFrom fuel ts rest (stSetM st idx)
         | Option.none => false) ||
        stMonth fuel ns (idx + 1) ts cs st

/-- Consume one-or-more whitespace characters (the first one has already been
checked by the caller), then continue; `\s+` may also stop here. -/
def stWsLoop (fuel : Nat) : List FTok → List Char → StDate → Bool :=
  match fuel with
  | 0 => fun _ _ _ => false
  | fuel + 1 => fun ts cs st =>
      stOKFrom fuel ts cs st ||
      (match cs with
       | c :: rest => pyIsSpace c && stWsLoop fuel ts rest st
       | [] => false)

end

/-- Embedding of the `datetime.strptime(value_str, fmt)` success test. -/
def strptime_ok (s : String) (fmt : String) : Bool :=
  match fmtTokenize fmt.data with
  | some ts =>
      let ts := fmtSquash ts
      stOKFrom (16 * ts.length + 2 * s.data.length + 32) ts s.data
        ⟨Option.none, Option.none, Option.none⟩
  | Option.none => false

/-! Classifier configuration (`SpreadsheetCompressor.__init__`) and
`recognize_data_type`. -/

/-- Default regex pattern table from `__init__`, with Python's dict
insertion order. -/
def default_patterns : List (String × String) :=
  [("url", "^(https?:\\/\\/|www\\.|ftp:\\/\\/|file:\\/\\/)[a-zA-Z0-9\\-\\.]+\\.[a-zA-Z]\x7b2,\x7d(:[0-9]+)?(\\/\\S*)?$"),
   ("year", "^(1|2)\\d\x7b3\x7d$"),
   ("integer", "^-?\\d+$"),
   ("percentage", "^-?\\d+\\.?\\d*%$"),
   ("scientific", "^-?\\d+\\.?\\d*[eE][+-]?\\d+$"),
   ("float", "^-?\\d*\\.\\d+$"),
   ("currency", "^[$€£¥]\\s*-?\\d+\\.?\\d*$|^-?\\d+\\.?\\d*\\s*[$€£¥]$"),
   ("email", "^[a-zA-Z0-9._%+-]+@[a-zA-Z0-9.-]+\\.[a-zA-Z]\x7b2,\x7d$")]

def default_date_patterns : List String :=
  ["%Y-%m-%d", "%d-%m-%Y", "%m-%d-%Y", "%Y/%m/%d", "%d/%m/%Y", "%m/%d/%Y",
   "%d.%m.%Y", "%Y.%m.%d", "%b %d, %Y", "%B %d, %Y", "%d %b %Y", "%d %B %Y"]

def default_time_patterns : List String :=
  ["%H:%M", "%H:%M:%S", "%I:%M %p", "%I:%M:%S %p"]

/-- Insert one key/value pair with Python-dict semantics: an existing key
keeps its position and gets the new value, a new key is appended. -/
def dictInsert (m : List (String × String)) (kv : String × String) :
    List (String × String) :=
  if m.any (fun p => p.1 = kv.1) then
    m.map (fun p => if p.1 = kv.1 then (p.1, kv.2) else p)
  else m ++ [kv]

/-- Embedding of the dict merge `{**a, **b}`. -/
def pyDictMerge (a b : List (String × String)) : List (String × String) :=
  b.foldl dictInsert a

/-- Classifier state built by `__init__`: the merged pattern table and the
date/time format lists. -/
structure SCConfig where
  patterns : List (String × String)
  date_patterns : List String
  time_patterns : List String
deriving DecidableEq, Repr

/-- Embedding of `SpreadsheetCompressor.__init__` (a `None` or falsy - i.e.
empty - custom list falls back to the defaults, mirroring `x or default`). -/
def mkCompressor (custom_patterns : Option (List (String × String)))
    (custom_date_patterns : Option (List String))
    (custom_time_patterns : Option (List String)) : SCConfig :=
  ⟨pyDictMerge default_patterns
      (match custom_patterns with
       | some l => l
       | Option.none => []),
   (match custom_date_patterns with
    | some l => if l.isEmpty then default_date_patterns else l
    | Option.none => default_date_patterns),
   (match custom_time_patterns with
    | some l => if l.isEmpty then default_time_patterns else l
    | Option.none => default_time_patterns)⟩

def defaultCfg : SCConfig := mkCompressor Option.none Option.none Option.none

/-- Truthiness of the guard
`value is None or (isinstance(value, str) and not value.strip())`. -/
def isEmptyVal (value : CellValue) : Bool :=
  match value with
  | .none => true
  | .str s => pyStrip s = ""
  | _ => false

/-- First matching pattern of the table, as the `for pattern_name, pattern
in self._patterns.items()` loop; a malformed pattern raises out of the
loop (`re.error` is not caught anywhere in the source). -/
def tryPatterns : List (String × String) → String → Except Unit (Option String)
  | [], _ => .ok Option.none
  | (pattern_name, pattern) :: rest, s => do
      let b ← re_match pattern s
      if b then .ok (some ("[" ++ pyToUpper pattern_name ++ "]"))
      else tryPatterns rest s

/-- Embedding of `recognize_data_type`. -/
def recognize_data_type (cfg : SCConfig) (value : CellValue) : Except Unit String :=
  if isEmptyVal value then .ok ("Empty")
  else
    let value_str := pyStrip (py_str value)
    match tryPatterns cfg.patterns value_str with
    | .error e => .error e
    | .ok (some tag) => .ok tag
    | .ok Option.none =>
        if cfg.date_patterns.any (fun p => strptime_ok value_str p) then .ok ("[DATE]")
        else if cfg.time_patterns.any (fun p => strptime_ok value_str p) then .ok ("[TIME]")
        else .ok ("Others")

/-! Coordinates: `_cell_to_tuple` and the openpyxl conversion helpers. -/

/-- Embedding of `SpreadsheetCompressor._cell_to_tuple`: the alphabetic
characters of the reference, and the integer value of its digit characters
(0 when there are none). -/
def cell_to_tuple (cell_ref : String) : String × Nat :=
  let col_str := String.mk (cell_ref.data.filter Char.isAlpha)
  let row_str := cell_ref.data.filter Char.isDigit
  (col_str, if row_str.isEmpty then 0 else digitsToNat row_str)

/-- Bijective base-26 value of an uppercase column string. -/
def colIdxVal (s : String) : Nat :=
  s.data.foldl (fun a c => a * 26 + (c.toNat - 64)) 0

/-- Embedding of `openpyxl.utils.cell.column_index_from_string`: upper-cases
its argument and accepts exactly the cached column names "A".."ZZZ"
(1..18278), raising `ValueError` otherwise. -/
def column_index_from_string (s : String) : Except Unit Nat :=
  let u := pyToUpper s
  if 1 ≤ u.length ∧ u.length ≤ 3 ∧ (∀ c ∈ u.data, 'A' ≤ c ∧ c ≤ 'Z') then
    .ok (colIdxVal u)
  else .error ()

def colLetter1 (k : Nat) : String := String.mk [Char.ofNat (64 + k)]

/-- Letters of a 1-based column index in 1..18278 (bijective base 26). -/
def colLetters (n : Nat) : String :=
  if n ≤ 26 then colLetter1 n
  else if n ≤ 702 then
    colLetter1 ((n - 27) / 26 + 1) ++ colLetter1 ((n - 1) % 26 + 1)
  else
    colLetter1 ((n - 703) / 676 + 1) ++ colLetter1 (((n - 27) / 26) % 26 + 1) ++
      colLetter1 ((n - 1) % 26 + 1)

/-- Embedding of `openpyxl.utils.cell.get_column_letter` (cached for
1..18278, `ValueError` otherwise). -/
def get_column_letter (n : Nat) : Except Unit String :=
  if 1 ≤ n ∧ n ≤ 18278 then .ok (colLetters n) else .error ()

/-- Total column index with default 0 (used on the specification side when
stating properties; it agrees with `column_index_from_string` wherever the
latter succeeds). -/
def colIdxD (s : String) : Nat :=
  match column_index_from_string s with
  | .ok n => n
  | .error _ => 0

/-- Abstract `(column index, row)` coordinate denoted by a cell text. -/
def locPair (cell : String) : Nat × Nat :=
  (colIdxD (cell_to_tuple cell).1, (cell_to_tuple cell).2)

/-- Abstract cell location `(sheet, 1-based column index, row)` denoted by a
`(sheet, cellText)` pair; coordinates are compared abstractly so that
non-canonical spellings of the same cell ("a1", "A01") denote the same
location. -/
def locD (p : String × String) : String × Nat × Nat :=
  (p.1, locPair p.2)

/-! The range compressor `compress_cell_references`. -/

/-- A value flowing into the compressor: the intended `(sheet, cell)`
two-element list, or - at the buggy call sites - an already-formatted range
string.  `idx0`/`idx1` are Python `x[0]`/`x[1]`, `unpack2` is the
two-variable unpacking `a, b = x` (which succeeds on a string only when it
has exactly two characters). -/
inductive PyRef where
  | tup (sheet cell : String)
  | str (s : String)
deriving DecidableEq, Repr

def PyRef.idx0 : PyRef → Except Unit String
  | .tup s _ => .ok s
  | .str s =>
      match s.data with
      | c :: _ => .ok (String.mk [c])
      | [] => .error ()

def PyRef.idx1 : PyRef → Except Unit String
  | .tup _ c => .ok c
  | .str s =>
      match s.data with
      | _ :: c :: _ => .ok (String.mk [c])
      | _ => .error ()

def PyRef.unpack2 : PyRef → Except Unit (String × String)
  | .tup s c => .ok (s, c)
  | .str s =>
      match s.data with
      | [a, b] => .ok (String.mk [a], String.mk [b])
      | _ => .error ()

/-- Sort key of the `sorted(...)` call: sheet text, column index, row. -/
def sortKey (r : PyRef) : Except Unit (String × Nat × Nat) := do
  let x0 ← r.idx0
  let x1 ← r.idx1
  let t := cell_to_tuple x1
  let ci ← column_index_from_string t.1
  .ok (x0, ci, t.2)

/-- Python string comparison: code-point lexicographic order. -/
def strLT (a b : String) : Prop :=
  List.Lex (fun c d : Char => c < d) a.data b.data

instance : DecidableRel strLT := fun a b => by unfold strLT; infer_instance

theorem strLT_trichotomy (a b : String) : strLT a b ∨ a = b ∨ strLT b a := by
  rcases trichotomous_of (List.Lex (fun c d : Char => c < d)) a.data b.data with h | h | h
  · exact Or.inl h
  · refine Or.inr (Or.inl ?_)
    cases a
    cases b
    exact congrArg String.mk h
  · exact Or.inr (Or.inr h)

theorem strLT_trans {a b c : String} (h1 : strLT a b) (h2 : strLT b c) : strLT a c :=
  IsTrans.trans (r := List.Lex (fun c d : Char => c < d)) _ _ _ h1 h2

/-- Lexicographic comparison of sort keys, as Python compares the key
tuples. -/
def keyLE (a b : String × Nat × Nat) : Prop :=
  strLT a.1 b.1 ∨ (a.1 = b.1 ∧ (a.2.1 < b.2.1 ∨ (a.2.1 = b.2.1 ∧ a.2.2 ≤ b.2.2)))

instance : DecidableRel keyLE := fun a b => by unfold keyLE; infer_instance

/-- Key order lifted to key-decorated elements (Python's sort is stable; a
stable sort by a total preorder has a unique result, so Mathlib's insertion
sort gives the same list as CPython's stable mergesort). -/
def pkeyLE (a b : (String × Nat × Nat) × PyRef) : Prop := keyLE a.1 b.1

instance : DecidableRel pkeyLE := fun a b => by unfold pkeyLE; infer_instance

theorem keyLE_total (a b : String × Nat × Nat) : keyLE a b ∨ keyLE b a := by
  rcases strLT_trichotomy a.1 b.1 with h | h | h
  · exact Or.inl (Or.inl h)
  · rcases lt_trichotomy a.2.1 b.2.1 with h2 | h2 | h2
    · exact Or.inl (Or.inr ⟨h, Or.inl h2⟩)
    · rcases Nat.le_total a.2.2 b.2.2 with h3 | h3
      · exact Or.inl (Or.inr ⟨h, Or.inr ⟨h2, h3⟩⟩)
      · exact Or.inr (Or.inr ⟨h.symm, Or.inr ⟨h2.symm, h3⟩⟩)
    · exact Or.inr (Or.inr ⟨h.symm, Or.inl h2⟩)
  · exact Or.inr (Or.inl h)

theorem keyLE_trans {a b c : String × Nat × Nat} (h1 : keyLE a b) (h2 : keyLE b c) :
    keyLE a c := by
  rcases h1 with h1 | ⟨e1, h1⟩
  · rcases h2 with h2 | ⟨e2, _⟩
    · exact Or.inl (strLT_trans h1 h2)
    · exact Or.inl (e2 ▸ h1)
  · rcases h2 with h2 | ⟨e2, h2⟩
    · exact Or.inl (e1 ▸ h2)
    · refine Or.inr ⟨e1.trans e2, ?_⟩
      rcases h1 with h1 | ⟨f1, h1⟩
      · rcases h2 with h2 | ⟨f2, _⟩
        · exact Or.inl (h1.trans h2)
        · exact Or.inl (f2 ▸ h1)
      · rcases h2 with h2 | ⟨f2, h2⟩
        · exact Or.inl (f1 ▸ h2)
        · exact Or.inr ⟨f1.trans f2, h1.trans h2⟩

instance : IsTotal ((String × Nat × Nat) × PyRef) pkeyLE :=
  ⟨fun a b => keyLE_total a.1 b.1⟩

instance : IsTrans ((String × Nat × Nat) × PyRef) pkeyLE :=
  ⟨fun _ _ _ h1 h2 => keyLE_trans h1 h2⟩

/-- The stable sort of the key-decorated reference list. -/
def sortRefs (l : List ((String × Nat × Nat) × PyRef)) :
    List ((String × Nat × Nat) × PyRef) :=
  List.insertionSort pkeyLE l

/-- One open/flushed range of the scan: sheet, start cell text, end cell
text (the source keeps a `current_range_end_sheet` variable as well, but
never reads it; formatting at flush time is `_format_range`, factored below
as a pure map over these records). -/
structure SRange where
  sheet : String
  startCell : String
  endCell : String
deriving DecidableEq, Repr

/-- Embedding of `_format_range`. -/
def format_range (r : SRange) : String :=
  if r.startCell = r.endCell then r.sheet ++ "!" ++ r.startCell
  else r.sheet ++ "!" ++ r.startCell ++ ":" ++ r.endCell

/-- The scan loop of `compress_cell_references` over the sorted, unpacked
references, carrying the open range `(ss, sc, ec)`.  The source also
recomputes `_cell_to_tuple(current_range_start_cell)` each iteration but
never uses the result.  The two extension tests and the short-circuit
evaluation order (`column_index_from_string` only runs when the rows are
equal) follow the source's `if` condition. -/
def scan1 (ss sc ec : String) : List (String × String) → Except Unit (List SRange)
  | [] => .ok [⟨ss, sc, ec⟩]
  | (sheet, cell) :: rest =>
      let e := cell_to_tuple ec
      let cur := cell_to_tuple cell
      if sheet = ss then
        if cur.1 = e.1 ∧ cur.2 = e.2 + 1 then scan1 ss sc cell rest
        else if cur.2 = e.2 then do
          let ci ← column_index_from_string cur.1
          let ei ← column_index_from_string e.1
          if ci = ei + 1 then scan1 ss sc cell rest
          else do
            let rs ← scan1 sheet cell cell rest
            .ok (⟨ss, sc, ec⟩ :: rs)
        else do
          let rs ← scan1 sheet cell cell rest
          .ok (⟨ss, sc, ec⟩ :: rs)
      else do
        let rs ← scan1 sheet cell cell rest
        .ok (⟨ss, sc, ec⟩ :: rs)

/-- The `try` body of `compress_cell_references`: decorate with sort keys
(raising on the first bad key, as `sorted` computes every key before
comparing), sort stably, unpack each element, scan.  Returns the flushed
ranges in order. -/
def compressBody (references : List PyRef) : Except Unit (List SRange) := do
  let keyed ← pyMapM (fun r => do
    let k ← sortKey r
    pure (k, r)) references
  let sorted_refs := sortRefs keyed
  let pairs ← pyMapM (fun p => p.2.unpack2) sorted_refs
  match pairs with
  | [] => .ok []
  | (s0, c0) :: rest => scan1 s0 c0 c0 rest

/-- Embedding of `compress_cell_references`.  An empty input returns `[]`
before the `try` block; any exception in the body is caught and answered
with the fallback list comprehension, whose own `ref[0]`/`ref[1]` indexing
can itself raise (uncaught) on short string inputs. -/
def compress_cell_references (references : List PyRef) : Except Unit (List String) :=
  if references.isEmpty then .ok []
  else
    match compressBody references with
    | .ok rs => .ok (rs.map format_range)
    | .error _ =>
        pyMapM (fun r => do
          let a ← r.idx0
          let b ← r.idx1
          pure (a ++ "!" ++ b)) references

/-! The grid walker `_process_cells` and the CSV aggregation `parse_csv`.

The walker's first test, `isinstance(cells,
openpyxl.worksheet.worksheet.Worksheet.rows)`, is evaluated on every call:
`Worksheet.rows` is a `@property`, so the class attribute is a property
object and not a type, and `isinstance` with a non-type second argument
raises `TypeError` unconditionally.  The walker therefore raises before
touching any cell; the bucketing loops and the per-bucket compression below
the test are dead code (still translated here, guarded behind the raising
test), and every parser's `except Exception` handler converts the
`TypeError` into `SpreadsheetParsingError`.  Errors at this layer are
distinguished by `PyExc`. -/

/-- The Python exceptions the walker layer distinguishes: the `TypeError`
raised by the `isinstance` dispatch, the `SpreadsheetParsingError` the
parsers re-raise, and a generic constructor for any other exception. -/
inductive PyExc where
  | typeError
  | spreadsheetParsingError
  | exc
deriving DecidableEq, Repr

/-- Embedding of the test `isinstance(cells,
openpyxl.worksheet.worksheet.Worksheet.rows)` opening `_process_cells`:
because `Worksheet.rows` is a property object, not a type, the call raises
`TypeError` for every `cells` value and never returns a Bool. -/
def isinstance_rows : Except PyExc Bool := .error PyExc.typeError

/-- Append a location to a category bucket with `defaultdict(list)`
semantics: existing key keeps its position, new key appended. -/
def bucketAdd (m : List (String × List (String × String))) (k : String)
    (v : String × String) : List (String × List (String × String)) :=
  if m.any (fun p => p.1 = k) then
    m.map (fun p => if p.1 = k then (p.1, p.2 ++ [v]) else p)
  else m ++ [(k, [v])]

/-- Inner loop of `_process_cells`'s dead list branch over one row
(`enumerate(row, start=1)`): skip `None` cells, classify, compute the
coordinate text, and bucket under the literal `str(cell_value)` when the
type is `"Others"`, under the type tag otherwise, skipping `"Empty"`. -/
def groupCellsRow (cfg : SCConfig) (sheet_name : String) (row_idx : Nat) :
    List CellValue → Nat → List (String × List (String × String)) →
    Except Unit (List (String × List (String × String)))
  | [], _, acc => .ok acc
  | v :: vs, col_idx, acc =>
      if v = CellValue.none then groupCellsRow cfg sheet_name row_idx vs (col_idx + 1) acc
      else do
        let dtype ← recognize_data_type cfg v
        let col_letter ← get_column_letter col_idx
        let cell_ref := col_letter ++ toString row_idx
        let acc' :=
          if dtype = "Others" then bucketAdd acc (py_str v) (sheet_name, cell_ref)
          else if dtype ≠ "Empty" then bucketAdd acc dtype (sheet_name, cell_ref)
          else acc
        groupCellsRow cfg sheet_name row_idx vs (col_idx + 1) acc'

/-- Outer loop of `_process_cells`'s dead list branch
(`enumerate(cells, start=1)`). -/
def groupCellsAux (cfg : SCConfig) (sheet_name : String) :
    List (List CellValue) → Nat → List (String × List (String × String)) →
    Except Unit (List (String × List (String × String)))
  | [], _, acc => .ok acc
  | row :: rows, row_idx, acc => do
      let acc' ← groupCellsRow cfg sheet_name row_idx row 1 acc
      groupCellsAux cfg sheet_name rows (row_idx + 1) acc'

/-- The `grouped_data` buckets the dead list-of-lists branch of
`_process_cells` would build for a sheet given as a list of rows.
Unreachable in the program: the `isinstance` test guarding it raises. -/
def groupCells (cfg : SCConfig) (cells : List (List CellValue)) (sheet_name : String) :
    Except Unit (List (String × List (String × String))) :=
  groupCellsAux cfg sheet_name cells 1 []

/-- Embedding of `_process_cells`.  After building the empty `defaultdict`,
the body's first test is the `isinstance` against the `Worksheet.rows`
property, which raises `TypeError` on every call, so the function never
returns.  The translation of the rest of the body - the `Worksheet.rows`
branch walks openpyxl cell objects, which the list-of-lists input modelled
here cannot inhabit; the `list` branch buckets via `groupCells` and then
compresses each bucket (returning already-compressed range text per
bucket) - is kept, guarded behind the raising test, as the dead code it
is. -/
def process_cells (cfg : SCConfig) (cells : List (List CellValue)) (sheet_name : String) :
    Except PyExc (List (String × List String)) := do
  let isRows ← isinstance_rows
  if isRows then .error PyExc.exc
  else do
    let grouped ← (groupCells cfg cells sheet_name).mapError (fun _ => PyExc.exc)
    (pyMapM (fun p => do
      let c ← compress_cell_references (p.2.map (fun sc => PyRef.tup sc.1 sc.2))
      pure (p.1, c)) grouped).mapError (fun _ => PyExc.exc)

/-- Embedding of `parse_csv` after the `csv.reader` tokenisation (every cell
is a string): one sheet named "Sheet1" is handed to `_process_cells`, whose
`TypeError` - like every other exception of the `try` body - is caught by
the `except Exception` handler and re-raised as `SpreadsheetParsingError`.
So `parse_csv` raises on every document and never returns a mapping; the
dead continuation (which would pass the already-compressed per-bucket
strings through `compress_cell_references` a second time) is kept in
translation. -/
def parse_csv (cfg : SCConfig) (rows : List (List String)) :
    Except PyExc (List (String × List String)) :=
  match (do
    let sheet_result ← process_cells cfg (rows.map (fun r => r.map CellValue.str)) ("Sheet1")
    (pyMapM (fun p => do
      let c ← compress_cell_references (p.2.map PyRef.str)
      pure (p.1, c)) sheet_result).mapError (fun _ => PyExc.exc) :
      Except PyExc (List (String × List String))) with
  | .ok m => .ok m
  | .error _ => .error PyExc.spreadsheetParsingError

/-! Specification-side notions (decompression, output grammar). -/

/-- Modelled from the spec: the coordinate pairs covered between two
endpoints - the axis-aligned block they span, enumerated column-major (the
sorted order of the compressor). -/
def rectPairs (p q : Nat × Nat) : List (Nat × Nat) :=
  (List.range' p.1 (q.1 + 1 - p.1)).flatMap
    (fun c => (List.range' p.2 (q.2 + 1 - p.2)).map (fun r => (c, r)))

/-- Modelled from the spec: the cell locations a range expression covers
(spec sections 3 and 8: a singleton covers its one cell, a run covers every
cell between start and end). -/
def impliedLocs (r : SRange) : List (String × Nat × Nat) :=
  (rectPairs (locPair r.startCell) (locPair r.endCell)).map (fun q => (r.sheet, q))

/-- Modelled from the spec: locations implied by a list of ranges. -/
def impliedAll (rs : List SRange) : List (String × Nat × Nat) :=
  rs.flatMap impliedLocs

/-- Modelled from the spec: decompression of a structured range back into
`(sheet, cellText)` pairs, rendering each covered coordinate canonically. -/
def expandOne (r : SRange) : List (String × String) :=
  (rectPairs (locPair r.startCell) (locPair r.endCell)).map
    (fun q => (r.sheet, colLetters q.1 ++ toString q.2))

/-- Modelled from the spec: decompression of a whole output. -/
def expandStruct (rs : List SRange) : List (String × String) :=
  rs.flatMap expandOne

/-- Split a character list at every occurrence of a separator. -/
def splitChar (sep : Char) : List Char → List (List Char)
  | [] => [[]]
  | c :: rest =>
      match splitChar sep rest with
      | h :: t => if c = sep then [] :: h :: t else (c :: h) :: t
      | [] => [[c]]

/-- Modelled from the spec: `Cell` in the output grammar is one-or-more
uppercase letters followed by one-or-more digits. -/
def isCellTok (cs : List Char) : Bool :=
  let L := cs.takeWhile Char.isUpper
  let R := cs.drop L.length
  decide (1 ≤ L.length) && decide (1 ≤ R.length) && R.all Char.isDigit

/-- Modelled from the spec: the output grammar `Sheet!Cell` or
`Sheet!Cell:Cell`. -/
def matchesGrammar (s : String) : Bool :=
  match splitChar '!' s.data with
  | [_, cellPart] =>
      (match splitChar ':' cellPart with
       | [c] => isCellTok c
       | [c1, c2] => isCellTok c1 && isCellTok c2
       | _ => false)
  | _ => false

deriving instance DecidableEq for Except

/-! Helper lemmas. -/

theorem fallback_tup (refs : List (String × String)) :
    pyMapM (fun r => do
      let a ← r.idx0
      let b ← r.idx1
      pure (a ++ "!" ++ b)) (refs.map (fun sc => PyRef.tup sc.1 sc.2)) =
      Except.ok (refs.map (fun sc => sc.1 ++ "!" ++ sc.2)) := by
  induction refs with
  | nil => rfl
  | cons h t ih =>
      simp only [List.map_cons, pyMapM, ih]
      rfl

theorem get_column_letter_one : get_column_letter 1 = .ok ("A") := by decide

theorem a1_text : ("A" : String) ++ toString 1 = "A1" := by decide

/-! Claim theorems. -/

/-- Claim C7: classifier precedence on the default configuration:
`"123"` is `[INTEGER]`, `"12.5"` is `[FLOAT]`, `"50%"` is `[PERCENTAGE]`,
`"1999"` is `[YEAR]`, `"2024-01-15"` is `[DATE]`, `"14:30"` is `[TIME]`, and
`None`, the empty string and a whitespace-only string are `Empty`. -/
theorem claim_C7_classifier_precedence :
    recognize_data_type defaultCfg (CellValue.str "123") = .ok ("[INTEGER]") ∧
    recognize_data_type defaultCfg (CellValue.str "12.5") = .ok ("[FLOAT]") ∧
    recognize_data_type defaultCfg (CellValue.str "50%") = .ok ("[PERCENTAGE]") ∧
    recognize_data_type defaultCfg (CellValue.str "1999") = .ok ("[YEAR]") ∧
    recognize_data_type defaultCfg (CellValue.str "2024-01-15") = .ok ("[DATE]") ∧
    recognize_data_type defaultCfg (CellValue.str "14:30") = .ok ("[TIME]") ∧
    recognize_data_type defaultCfg CellValue.none = .ok ("Empty") ∧
    recognize_data_type defaultCfg (CellValue.str "") = .ok ("Empty") ∧
    recognize_data_type defaultCfg (CellValue.str " \t ") = .ok ("Empty") := by
  decide

/-- Claim C6 (failing evaluation): the value `" apple"` is non-empty and
matched by no regex pattern, no date format and no time format (it
classifies `"Others"`), yet its location is never bucketed under any
category: `_process_cells` raises `TypeError` at its opening `isinstance`
against the `Worksheet.rows` property before the bucketing loop, and the
CSV parser converts that into `SpreadsheetParsingError` - so the
literal-string bucketing the claim describes does not occur at all. -/
theorem claim_C6_failing_eval :
    recognize_data_type defaultCfg (CellValue.str " apple") = .ok ("Others") ∧
    process_cells defaultCfg [[CellValue.str " apple"]] ("Sheet1")
      = .error PyExc.typeError ∧
    parse_csv defaultCfg [[" apple"]] = .error PyExc.spreadsheetParsingError := by
  decide

/-- Claim C3 (failing evaluation): on the one-cell CSV `[["123"]]` no
per-category output is obtained at all: `_process_cells` raises `TypeError`
at its opening `isinstance(cells, Worksheet.rows)` test (`rows` is a
property, not a type), `parse_csv`'s `except Exception` handler re-raises
it as `SpreadsheetParsingError`, and the concatenate-then-compress-once
aggregation the claim describes never runs on any document. -/
theorem claim_C3_failing_eval :
    isinstance_rows = .error PyExc.typeError ∧
    process_cells defaultCfg [[CellValue.str "123"]] ("Sheet1")
      = .error PyExc.typeError ∧
    parse_csv defaultCfg [["123"]] = .error PyExc.spreadsheetParsingError := by
  decide

/-- Claim C4 (failing evaluation): the CSV path produces no final mapping
whose strings could match the output grammar: on the one-cell document
`[["456"]]` (as on every document) `parse_csv` raises
`SpreadsheetParsingError`, propagated from the `TypeError` of the walker's
`isinstance` dispatch; the range text `"Sheet1!A1"` the pipeline is meant
to emit for that document would match the grammar. -/
theorem claim_C4_failing_eval :
    parse_csv defaultCfg [["456"]] = .error PyExc.spreadsheetParsingError ∧
    matchesGrammar ("Sheet1!A1") = true := by
  decide

/-- Claim C5: the compressor never raises on a list of `(sheet, cell)`
pairs: it returns the scanned ranges when the body succeeds, and otherwise
the fallback of one `"sheet!cell"` expression per input pair, in the
original input order. -/
theorem claim_C5_never_raises (refs : List (String × String)) :
    compress_cell_references (refs.map (fun sc => PyRef.tup sc.1 sc.2)) =
      .ok (match compressBody (refs.map (fun sc => PyRef.tup sc.1 sc.2)) with
        | .ok rs => rs.map format_range
        | .error _ => refs.map (fun sc => sc.1 ++ "!" ++ sc.2)) := by
  unfold compress_cell_references
  cases he : (refs.map (fun sc => PyRef.tup sc.1 sc.2)).isEmpty
  · simp only [Bool.false_eq_true, if_false]
    cases hb : compressBody (refs.map (fun sc => PyRef.tup sc.1 sc.2)) with
    | ok rs => rfl
    | error e => exact fallback_tup refs
  · have : refs = [] := by
      cases refs with
      | nil => rfl
      | cons a l => simp [List.isEmpty] at he
    subst this
    rfl

theorem lookup_append (a : String) (l₁ l₂ : List (String × String)) :
    List.lookup a (l₁ ++ l₂) = (List.lookup a l₁).or (List.lookup a l₂) := by
  induction l₁ with
  | nil => simp [List.lookup]
  | cons p l ih =>
      cases p with
      | mk k v =>
          by_cases h : a = k
          · have hbeq : (a == k) = true := by simp [h]
            simp [List.lookup, hbeq]
          · have hbeq : (a == k) = false := by simp [h]
            simp [List.lookup, hbeq, ih]

theorem lookup_some_mem {a v : String} {l : List (String × String)}
    (h : List.lookup a l = some v) : a ∈ l.map Prod.fst := by
  induction l with
  | nil => simp [List.lookup] at h
  | cons p l ih =>
      cases p with
      | mk k w =>
          by_cases he : a = k
          · simp [he]
          · have hbeq : (a == k) = false := by simp [he]
            simp only [List.lookup, hbeq] at h
            simp [ih h]

theorem lookup_single_ne {a : String} {c : String × String} (h : a ≠ c.1) :
    List.lookup a [c] = Option.none := by
  cases c with
  | mk k v =>
      have hbeq : (a == k) = false := by simpa using h
      simp [List.lookup, hbeq]

theorem lookup_single_eq {a : String} {c : String × String} (h : a = c.1) :
    List.lookup a [c] = some c.2 := by
  cases c with
  | mk k v =>
      have hbeq : (a == k) = true := by simpa using h
      simp [List.lookup, hbeq]

/-- Claim C10: a custom pattern whose name collides with a built-in default
replaces that default's regex at the default's original slot in the
iteration order (url, year, integer, percentage, scientific, float,
currency, email), and only custom patterns with new names are appended
after all the defaults. -/
theorem claim_C10_merge_order (custom : List (String × String))
    (hnd : (custom.map Prod.fst).Nodup) :
    pyDictMerge default_patterns custom =
      default_patterns.map (fun p => (p.1, (List.lookup p.1 custom).getD p.2)) ++
      custom.filter (fun q => !(decide (q.1 ∈ default_patterns.map Prod.fst))) := by
  induction custom using List.reverseRecOn with
  | nil => simp [pyDictMerge, List.lookup]
  | append_singleton cs c ih =>
      have hnd1 : (cs.map Prod.fst).Nodup := by
        simp only [List.map_append, List.nodup_append] at hnd
        exact hnd.1
      have hnotin : c.1 ∉ cs.map Prod.fst := by
        simp only [List.map_append, List.nodup_append] at hnd
        intro hmem
        exact hnd.2.2 hmem (by simp)
      have hstep : pyDictMerge default_patterns (cs ++ [c]) =
          dictInsert (pyDictMerge default_patterns cs) c := by
        simp [pyDictMerge, List.foldl_append]
      rw [hstep, ih hnd1]
      by_cases hc : c.1 ∈ default_patterns.map Prod.fst
      · have hany : (default_patterns.map
              (fun p => (p.1, (List.lookup p.1 cs).getD p.2)) ++
            cs.filter (fun q => !(decide (q.1 ∈ default_patterns.map Prod.fst)))).any
              (fun p => p.1 = c.1) = true := by
          obtain ⟨p, hp, hpe⟩ := List.mem_map.mp hc
          simp only [List.any_append, Bool.or_eq_true, List.any_eq_true]
          exact Or.inl ⟨(p.1, (List.lookup p.1 cs).getD p.2), List.mem_map_of_mem _ hp,
            by simpa using hpe⟩
        rw [dictInsert, if_pos hany, List.map_append]
        have hmapF : (cs.filter
              (fun q => !(decide (q.1 ∈ default_patterns.map Prod.fst)))).map
              (fun p => if p.1 = c.1 then (p.1, c.2) else p) =
            cs.filter (fun q => !(decide (q.1 ∈ default_patterns.map Prod.fst))) := by
          conv_rhs => rw [← List.map_id (cs.filter
            (fun q => !(decide (q.1 ∈ default_patterns.map Prod.fst))))]
          apply List.map_congr_left
          intro q hq
          have hqcs : q ∈ cs := List.mem_of_mem_filter hq
          have hne : q.1 ≠ c.1 := by
            intro he
            exact hnotin (he ▸ List.mem_map_of_mem Prod.fst hqcs)
          simp [hne]
        have hmapM : (default_patterns.map
              (fun p => (p.1, (List.lookup p.1 cs).getD p.2))).map
              (fun p => if p.1 = c.1 then (p.1, c.2) else p) =
            default_patterns.map
              (fun p => (p.1, (List.lookup p.1 (cs ++ [c])).getD p.2)) := by
          rw [List.map_map]
          apply List.map_congr_left
          intro p _
          by_cases hp : p.1 = c.1
          · have hl : List.lookup c.1 cs = Option.none := by
              cases hl : List.lookup c.1 cs with
              | none => rfl
              | some v => exact absurd (lookup_some_mem hl) hnotin
            have hlc : List.lookup c.1 (cs ++ [c]) = some c.2 := by
              rw [lookup_append, hl, lookup_single_eq rfl]
              rfl
            simp [Function.comp, hp, hlc]
          · have hlc : List.lookup p.1 (cs ++ [c]) = List.lookup p.1 cs := by
              rw [lookup_append, lookup_single_ne hp]
              cases List.lookup p.1 cs <;> rfl
            simp [Function.comp, hp, hlc]
        have hfilter : (cs ++ [c]).filter
              (fun q => !(decide (q.1 ∈ default_patterns.map Prod.fst))) =
            cs.filter (fun q => !(decide (q.1 ∈ default_patterns.map Prod.fst))) := by
          simp [List.filter_append, hc]
        rw [hmapM, hmapF, hfilter]
      · have hany : (default_patterns.map
              (fun p => (p.1, (List.lookup p.1 cs).getD p.2)) ++
            cs.filter (fun q => !(decide (q.1 ∈ default_patterns.map Prod.fst)))).any
              (fun p => p.1 = c.1) = false := by
          simp only [List.any_append, Bool.or_eq_false_iff, List.any_eq_false]
          constructor
          · intro p hp
            obtain ⟨q, hq, hqe⟩ := List.mem_map.mp hp
            simp only [← hqe, decide_eq_true_eq]
            intro he
            exact hc (he ▸ List.mem_map_of_mem Prod.fst hq)
          · intro p hp
            have hpcs : p ∈ cs := List.mem_of_mem_filter hp
            simp only [decide_eq_true_eq]
            intro he
            exact hnotin (he ▸ List.mem_map_of_mem Prod.fst hpcs)
        rw [dictInsert, if_neg (by simp [hany]), List.append_assoc]
        have hmapM : default_patterns.map
              (fun p => (p.1, (List.lookup p.1 cs).getD p.2)) =
            default_patterns.map
              (fun p => (p.1, (List.lookup p.1 (cs ++ [c])).getD p.2)) := by
          apply List.map_congr_left
          intro p hp
          by_cases hpc : p.1 = c.1
          · exact absurd (hpc ▸ List.mem_map_of_mem Prod.fst hp) hc
          · have hlc : List.lookup p.1 (cs ++ [c]) = List.lookup p.1 cs := by
              rw [lookup_append, lookup_single_ne hpc]
              cases List.lookup p.1 cs <;> rfl
            rw [hlc]
        have hfilter : (cs ++ [c]).filter
              (fun q => !(decide (q.1 ∈ default_patterns.map Prod.fst))) =
            cs.filter (fun q => !(decide (q.1 ∈ default_patterns.map Prod.fst))) ++ [c] := by
          simp [List.filter_append, hc]
        rw [hmapM, hfilter]

/-- Claim C10 (witness): a custom table overriding `integer` and adding a
new name `custom_id` yields exactly the defaults with `integer` replaced in
place and `custom_id` appended at the end. -/
theorem claim_C10_merge_order_witness :
    ((([("integer", "X"), ("custom_id", "Y")] : List (String × String)).map
        Prod.fst).Nodup) ∧
    pyDictMerge default_patterns [("integer", "X"), ("custom_id", "Y")] =
      default_patterns.map
        (fun p => (p.1,
          (List.lookup p.1 [("integer", "X"), ("custom_id", "Y")]).getD p.2)) ++
      [("integer", "X"), ("custom_id", "Y")].filter
        (fun q => !(decide (q.1 ∈ default_patterns.map Prod.fst))) :=
  ⟨by decide, claim_C10_merge_order [("integer", "X"), ("custom_id", "Y")] (by decide)⟩

/-! Chain invariant of the scan: the multiset of coordinates absorbed into
the open range is a staircase chain from the start coordinate to the end
coordinate, each step going down one row or right one column. -/

inductive Reach : (Nat × Nat) → (Nat × Nat) → Multiset (Nat × Nat) → Prop where
  | base (p : Nat × Nat) : Reach p p {p}
  | down {p q : Nat × Nat} {M : Multiset (Nat × Nat)} (h : Reach p q M) :
      Reach p (q.1, q.2 + 1) ((q.1, q.2 + 1) ::ₘ M)
  | right {p q : Nat × Nat} {M : Multiset (Nat × Nat)} (h : Reach p q M) :
      Reach p (q.1 + 1, q.2) ((q.1 + 1, q.2) ::ₘ M)

theorem Reach.end_mem {p q : Nat × Nat} {M : Multiset (Nat × Nat)} (h : Reach p q M) :
    q ∈ M := by
  induction h with
  | base => exact Multiset.mem_singleton_self p
  | down h ih => exact Multiset.mem_cons_self _ _
  | right h ih => exact Multiset.mem_cons_self _ _

theorem Reach.bounds {p q : Nat × Nat} {M : Multiset (Nat × Nat)} (h : Reach p q M) :
    ∀ x ∈ M, p.1 ≤ x.1 ∧ p.2 ≤ x.2 ∧ x.1 ≤ q.1 ∧ x.2 ≤ q.2 := by
  induction h with
  | base =>
      intro x hx
      rw [Multiset.mem_singleton] at hx
      subst hx
      exact ⟨le_refl _, le_refl _, le_refl _, le_refl _⟩
  | down h ih =>
      intro x hx
      rcases Multiset.mem_cons.mp hx with he | hm
      · subst he
        have hq := ih _ h.end_mem
        exact ⟨hq.1, le_trans hq.2.1 (Nat.le_succ _), le_refl _, le_refl _⟩
      · have hq := ih _ hm
        exact ⟨hq.1, hq.2.1, hq.2.2.1, le_trans hq.2.2.2 (Nat.le_succ _)⟩
  | right h ih =>
      intro x hx
      rcases Multiset.mem_cons.mp hx with he | hm
      · subst he
        have hq := ih _ h.end_mem
        exact ⟨le_trans hq.1 (Nat.le_succ _), hq.2.1, le_refl _, le_refl _⟩
      · have hq := ih _ hm
        exact ⟨hq.1, hq.2.1, le_trans hq.2.2.1 (Nat.le_succ _), hq.2.2.2⟩

theorem Reach.nodup {p q : Nat × Nat} {M : Multiset (Nat × Nat)} (h : Reach p q M) :
    M.Nodup := by
  induction h with
  | base => exact Multiset.nodup_singleton p
  | down h ih =>
      refine Multiset.nodup_cons.mpr ⟨?_, ih⟩
      intro hmem
      have hb := h.bounds _ hmem
      omega
  | right h ih =>
      refine Multiset.nodup_cons.mpr ⟨?_, ih⟩
      intro hmem
      have hb := h.bounds _ hmem
      omega

theorem mem_rectPairs {p q x : Nat × Nat} :
    x ∈ rectPairs p q ↔ p.1 ≤ x.1 ∧ x.1 ≤ q.1 ∧ p.2 ≤ x.2 ∧ x.2 ≤ q.2 := by
  cases x with
  | mk a b =>
      simp only [rectPairs, List.mem_flatMap, List.mem_map, List.mem_range'_1,
        Prod.mk.injEq]
      constructor
      · rintro ⟨c, hc, r, hr, he1, he2⟩
        subst he1
        subst he2
        omega
      · rintro ⟨h1, h2, h3, h4⟩
        exact ⟨a, by omega, b, by omega, rfl, rfl⟩

theorem Reach.le_rect {p q : Nat × Nat} {M : Multiset (Nat × Nat)} (h : Reach p q M) :
    M ≤ (rectPairs p q : Multiset (Nat × Nat)) := by
  rw [Multiset.le_iff_count]
  intro x
  by_cases hx : x ∈ M
  · rw [Multiset.count_eq_one_of_mem h.nodup hx]
    have h2 : x ∈ rectPairs p q := by
      have hb := h.bounds x hx
      exact mem_rectPairs.mpr ⟨hb.1, hb.2.2.1, hb.2.1, hb.2.2.2⟩
    rw [Nat.one_le_iff_ne_zero, Ne, Multiset.count_eq_zero]
    simpa using h2
  · simp [Multiset.count_eq_zero_of_not_mem hx]

theorem except_bind_ok (a : α) (f : α → Except Unit β) :
    (Except.ok a >>= f) = f a := rfl

theorem except_bind_err (e : Unit) (f : α → Except Unit β) :
    ((Except.error e : Except Unit α) >>= f) = Except.error e := rfl

theorem except_bind_pure (a : α) (f : α → Except Unit β) :
    ((pure a : Except Unit α) >>= f) = f a := rfl

/-- The implied locations of one flushed range cover the chain absorbed into
it. -/
theorem range_cover {sc ec : String} {M : Multiset (Nat × Nat)} (ss : String)
    (hreach : Reach (locPair sc) (locPair ec) M) :
    ∃ e1, (impliedLocs ⟨ss, sc, ec⟩ : Multiset (String × Nat × Nat)) =
      M.map (fun q => (ss, q)) + e1 := by
  refine ⟨(rectPairs (locPair sc) (locPair ec) : Multiset (Nat × Nat)).map
    (fun q => (ss, q)) - M.map (fun q => (ss, q)), ?_⟩
  have hle : M.map (fun q => (ss, q)) ≤
      (rectPairs (locPair sc) (locPair ec) : Multiset (Nat × Nat)).map
        (fun q => (ss, q)) := Multiset.map_le_map hreach.le_rect
  have heq := add_tsub_cancel_of_le hle
  simp only [impliedLocs]
  rw [← Multiset.map_coe]
  exact heq.symm

/-- Flushing the open range and restarting from the incoming location
preserves no-loss accounting. -/
theorem flush_case {sheet cell ss sc ec : String} {rest : List (String × String)}
    {sr : List SRange} {M : Multiset (Nat × Nat)}
    (hreach : Reach (locPair sc) (locPair ec) M)
    (ih : ∀ (ss' sc' ec' : String) (M' : Multiset (Nat × Nat)) (sr' : List SRange),
      Reach (locPair sc') (locPair ec') M' → scan1 ss' sc' ec' rest = .ok sr' →
      ∃ extra, (impliedAll sr' : Multiset (String × Nat × Nat)) =
        ↑(rest.map locD) + M'.map (fun q => (ss', q)) + extra)
    (h : (do
        let rs ← scan1 sheet cell cell rest
        Except.ok (SRange.mk ss sc ec :: rs)) = Except.ok sr) :
    ∃ extra, (impliedAll sr : Multiset (String × Nat × Nat)) =
      ↑(((sheet, cell) :: rest).map locD) + M.map (fun q => (ss, q)) + extra := by
  cases hrec : scan1 sheet cell cell rest with
  | error u =>
      rw [hrec] at h
      simp only [except_bind_err] at h
      exact absurd h (by simp)
  | ok rs =>
      rw [hrec] at h
      simp only [except_bind_ok, Except.ok.injEq] at h
      subst h
      obtain ⟨e1, he1⟩ := range_cover ss hreach
      obtain ⟨e2, he2⟩ := ih sheet cell cell {locPair cell} rs (Reach.base _) hrec
      refine ⟨e1 + e2, ?_⟩
      have hsplit : (impliedAll (SRange.mk ss sc ec :: rs) :
          Multiset (String × Nat × Nat)) =
          (impliedLocs ⟨ss, sc, ec⟩ : Multiset (String × Nat × Nat)) +
            (impliedAll rs : Multiset (String × Nat × Nat)) := by
        simp only [impliedAll, List.flatMap_cons]
        rw [← Multiset.coe_add]
      rw [hsplit, he1, he2]
      simp only [List.map_cons, ← Multiset.cons_coe, Multiset.map_singleton, locD]
      rw [← Multiset.singleton_add]
      abel

/-- Extending the open range to the incoming cell preserves no-loss
accounting. -/
theorem extend_case {cell ss sc ec : String} {rest : List (String × String)}
    {sr : List SRange} {M : Multiset (Nat × Nat)}
    (hstep : locPair cell = ((locPair ec).1, (locPair ec).2 + 1) ∨
      locPair cell = ((locPair ec).1 + 1, (locPair ec).2))
    (hreach : Reach (locPair sc) (locPair ec) M)
    (ih : ∀ (ss' sc' ec' : String) (M' : Multiset (Nat × Nat)) (sr' : List SRange),
      Reach (locPair sc') (locPair ec') M' → scan1 ss' sc' ec' rest = .ok sr' →
      ∃ extra, (impliedAll sr' : Multiset (String × Nat × Nat)) =
        ↑(rest.map locD) + M'.map (fun q => (ss', q)) + extra)
    (h : scan1 ss sc cell rest = .ok sr) :
    ∃ extra, (impliedAll sr : Multiset (String × Nat × Nat)) =
      ↑(((ss, cell) :: rest).map locD) + M.map (fun q => (ss, q)) + extra := by
  have hreach' : Reach (locPair sc) (locPair cell) ((locPair cell) ::ₘ M) := by
    rcases hstep with hstep | hstep
    · rw [hstep]
      exact hreach.down
    · rw [hstep]
      exact hreach.right
  obtain ⟨extra, hex⟩ := ih ss sc cell ((locPair cell) ::ₘ M) sr hreach' h
  refine ⟨extra, ?_⟩
  rw [hex]
  simp only [List.map_cons, ← Multiset.cons_coe, Multiset.map_cons, locD]
  rw [← Multiset.singleton_add, ← Multiset.singleton_add]
  abel

/-- No-loss accounting for the whole scan: the locations implied by the
emitted ranges are the locations still to be consumed, plus the chain
already absorbed into the open range, plus (possibly) extra covered cells. -/
theorem scan1_noLoss :
    ∀ (rest : List (String × String)) (ss sc ec : String) (M : Multiset (Nat × Nat))
      (sr : List SRange),
      Reach (locPair sc) (locPair ec) M →
      scan1 ss sc ec rest = .ok sr →
      ∃ extra, (impliedAll sr : Multiset (String × Nat × Nat)) =
        ↑(rest.map locD) + M.map (fun q => (ss, q)) + extra := by
  intro rest
  induction rest with
  | nil =>
      intro ss sc ec M sr hreach h
      simp only [scan1, Except.ok.injEq] at h
      subst h
      obtain ⟨e1, he1⟩ := range_cover ss hreach
      refine ⟨e1, ?_⟩
      have hsplit : (impliedAll [SRange.mk ss sc ec] :
          Multiset (String × Nat × Nat)) =
          (impliedLocs ⟨ss, sc, ec⟩ : Multiset (String × Nat × Nat)) := by
        simp [impliedAll]
      rw [hsplit, he1]
      simp only [List.map_nil, Multiset.coe_nil, zero_add]
  | cons hd rest ih =>
      intro ss sc ec M sr hreach h
      obtain ⟨sheet, cell⟩ := hd
      simp only [scan1] at h
      by_cases hs : sheet = ss
      · subst hs
        rw [if_pos rfl] at h
        by_cases hv : (cell_to_tuple cell).1 = (cell_to_tuple ec).1 ∧
            (cell_to_tuple cell).2 = (cell_to_tuple ec).2 + 1
        · rw [if_pos hv] at h
          exact extend_case (Or.inl (by simp only [locPair]; rw [hv.1, hv.2]))
            hreach ih h
        · rw [if_neg hv] at h
          by_cases hr : (cell_to_tuple cell).2 = (cell_to_tuple ec).2
          · rw [if_pos hr] at h
            cases hci : column_index_from_string (cell_to_tuple cell).1 with
            | error u =>
                rw [hci] at h
                simp only [except_bind_err] at h
                exact absurd h (by simp)
            | ok ci =>
                rw [hci] at h
                simp only [except_bind_ok] at h
                cases hei : column_index_from_string (cell_to_tuple ec).1 with
                | error u =>
                    rw [hei] at h
                    simp only [except_bind_err] at h
                    exact absurd h (by simp)
                | ok ei =>
                    rw [hei] at h
                    simp only [except_bind_ok] at h
                    by_cases hstep : ci = ei + 1
                    · rw [if_pos hstep] at h
                      refine extend_case (Or.inr ?_) hreach ih h
                      simp only [locPair, colIdxD, hci, hei, hr, hstep]
                    · rw [if_neg hstep] at h
                      exact flush_case hreach ih h
          · rw [if_neg hr] at h
            exact flush_case hreach ih h
      · rw [if_neg hs] at h
        exact flush_case hreach ih h

/-- Endpoint monotonicity of every range emitted by the scan: the end cell's
column index and row never fall below the start cell's. -/
theorem scan1_mono :
    ∀ (rest : List (String × String)) (ss sc ec : String) (sr : List SRange),
      (locPair sc).1 ≤ (locPair ec).1 → (locPair sc).2 ≤ (locPair ec).2 →
      scan1 ss sc ec rest = .ok sr →
      ∀ r ∈ sr, (locPair r.startCell).1 ≤ (locPair r.endCell).1 ∧
        (locPair r.startCell).2 ≤ (locPair r.endCell).2 := by
  intro rest
  induction rest with
  | nil =>
      intro ss sc ec sr h1 h2 h r hr
      simp only [scan1, Except.ok.injEq] at h
      subst h
      rw [List.mem_singleton] at hr
      subst hr
      exact ⟨h1, h2⟩
  | cons hd rest ih =>
      intro ss sc ec sr h1 h2 h r hr
      obtain ⟨sheet, cell⟩ := hd
      simp only [scan1] at h
      by_cases hs : sheet = ss
      · rw [if_pos hs] at h
        by_cases hv : (cell_to_tuple cell).1 = (cell_to_tuple ec).1 ∧
            (cell_to_tuple cell).2 = (cell_to_tuple ec).2 + 1
        · rw [if_pos hv] at h
          refine ih ss sc cell sr ?_ ?_ h r hr
          · simpa only [locPair, hv.1] using h1
          · simp only [locPair] at h2 ⊢
            rw [hv.2]
            omega
        · rw [if_neg hv] at h
          by_cases hrow : (cell_to_tuple cell).2 = (cell_to_tuple ec).2
          · rw [if_pos hrow] at h
            cases hci : column_index_from_string (cell_to_tuple cell).1 with
            | error u =>
                rw [hci] at h
                simp only [except_bind_err] at h
                exact absurd h (by simp)
            | ok ci =>
                rw [hci] at h
                simp only [except_bind_ok] at h
                cases hei : column_index_from_string (cell_to_tuple ec).1 with
                | error u =>
                    rw [hei] at h
                    simp only [except_bind_err] at h
                    exact absurd h (by simp)
                | ok ei =>
                    rw [hei] at h
                    simp only [except_bind_ok] at h
                    by_cases hstep : ci = ei + 1
                    · rw [if_pos hstep] at h
                      refine ih ss sc cell sr ?_ ?_ h r hr
                      · have he1 : colIdxD (cell_to_tuple ec).1 = ei := by
                          simp [colIdxD, hei]
                        have hc1 : colIdxD (cell_to_tuple cell).1 = ci := by
                          simp [colIdxD, hci]
                        simp only [locPair, hc1, hstep]
                        simp only [locPair, he1] at h1
                        omega
                      · simpa only [locPair, hrow] using h2
                    · rw [if_neg hstep] at h
                      cases hrec : scan1 sheet cell cell rest with
                      | error u =>
                          rw [hrec] at h
                          simp only [except_bind_err] at h
                          exact absurd h (by simp)
                      | ok rs =>
                          rw [hrec] at h
                          simp only [except_bind_ok, Except.ok.injEq] at h
                          subst h
                          rcases List.mem_cons.mp hr with he | hm
                          · subst he
                            exact ⟨h1, h2⟩
                          · exact ih sheet cell cell rs (le_refl _) (le_refl _) hrec r hm
          · rw [if_neg hrow] at h
            cases hrec : scan1 sheet cell cell rest with
            | error u =>
                rw [hrec] at h
                simp only [except_bind_err] at h
                exact absurd h (by simp)
            | ok rs =>
                rw [hrec] at h
                simp only [except_bind_ok, Except.ok.injEq] at h
                subst h
                rcases List.mem_cons.mp hr with he | hm
                · subst he
                  exact ⟨h1, h2⟩
                · exact ih sheet cell cell rs (le_refl _) (le_refl _) hrec r hm
      · rw [if_neg hs] at h
        cases hrec : scan1 sheet cell cell rest with
        | error u =>
            rw [hrec] at h
            simp only [except_bind_err] at h
            exact absurd h (by simp)
        | ok rs =>
            rw [hrec] at h
            simp only [except_bind_ok, Except.ok.injEq] at h
            subst h
            rcases List.mem_cons.mp hr with he | hm
            · subst he
              exact ⟨h1, h2⟩
            · exact ih sheet cell cell rs (le_refl _) (le_refl _) hrec r hm

theorem keyed_spec :
    ∀ (l : List PyRef) (out : List ((String × Nat × Nat) × PyRef)),
      pyMapM (fun r => do
        let k ← sortKey r
        pure (k, r)) l = .ok out →
      out.map Prod.snd = l := by
  intro l
  induction l with
  | nil =>
      intro out h
      simp only [pyMapM, Except.ok.injEq] at h
      subst h
      rfl
  | cons a l ih =>
      intro out h
      simp only [pyMapM] at h
      cases hk : sortKey a with
      | error u =>
          rw [hk] at h
          simp only [except_bind_err] at h
          exact absurd h (by simp)
      | ok k =>
          rw [hk] at h
          simp only [except_bind_ok] at h
          cases hrest : pyMapM (fun r => do
              let k ← sortKey r
              pure (k, r)) l with
          | error u =>
              rw [hrest] at h
              simp only [except_bind_err] at h
              exact absurd h (by simp)
          | ok outl =>
              rw [hrest] at h
              simp only [except_bind_ok, except_bind_pure, Except.ok.injEq] at h
              subst h
              simp only [List.map_cons, ih outl hrest]

theorem unpack_tup_spec :
    ∀ (l : List ((String × Nat × Nat) × PyRef)) (out : List (String × String)),
      (∀ p ∈ l, ∃ sc : String × String, p.2 = PyRef.tup sc.1 sc.2) →
      pyMapM (fun p => p.2.unpack2) l = .ok out →
      out.map (fun sc => PyRef.tup sc.1 sc.2) = l.map Prod.snd := by
  intro l
  induction l with
  | nil =>
      intro out _ h
      simp only [pyMapM, Except.ok.injEq] at h
      subst h
      rfl
  | cons p l ih =>
      intro out hl h
      obtain ⟨sc, hsc⟩ := hl p (List.mem_cons_self p l)
      simp only [pyMapM] at h
      rw [hsc] at h
      have hok : (PyRef.tup sc.1 sc.2).unpack2 = Except.ok (sc.1, sc.2) := rfl
      rw [hok] at h
      simp only [except_bind_ok] at h
      cases hrest : pyMapM (fun p => p.2.unpack2) l with
      | error u =>
          rw [hrest] at h
          simp only [except_bind_err] at h
          exact absurd h (by simp)
      | ok outl =>
          rw [hrest] at h
          simp only [except_bind_ok, Except.ok.injEq] at h
          subst h
          have := ih outl (fun q hq => hl q (List.mem_cons_of_mem p hq)) hrest
          simp only [List.map_cons, this, hsc]

/-- Successful runs of the compressor body decompose into a successful key
computation, a successful unpacking of the sorted list, and a scan. -/
theorem compressBody_cases {references : List PyRef} {sr : List SRange}
    (h : compressBody references = .ok sr) :
    ∃ keyed pairs,
      pyMapM (fun r => do
        let k ← sortKey r
        pure (k, r)) references = .ok keyed ∧
      pyMapM (fun p => p.2.unpack2) (sortRefs keyed) = .ok pairs ∧
      ((pairs = [] ∧ sr = []) ∨
        ∃ s0 c0 rest, pairs = (s0, c0) :: rest ∧ scan1 s0 c0 c0 rest = .ok sr) := by
  unfold compressBody at h
  cases hk : pyMapM (fun r => do
      let k ← sortKey r
      pure (k, r)) references with
  | error u =>
      rw [hk] at h
      simp only [except_bind_err] at h
      exact absurd h (by simp)
  | ok keyed =>
      rw [hk] at h
      simp only [except_bind_ok] at h
      cases hp : pyMapM (fun p => p.2.unpack2) (sortRefs keyed) with
      | error u =>
          rw [hp] at h
          simp only [except_bind_err] at h
          exact absurd h (by simp)
      | ok pairs =>
          rw [hp] at h
          simp only [except_bind_ok] at h
          refine ⟨keyed, pairs, rfl, hp, ?_⟩
          cases pairs with
          | nil =>
              left
              simp only [Except.ok.injEq] at h
              exact ⟨rfl, h.symm⟩
          | cons p0 rest =>
              right
              obtain ⟨s0, c0⟩ := p0
              exact ⟨s0, c0, rest, rfl, h⟩

/-- Claim C1 (counterexample): for the input locations A1, A2, B2 on one
sheet, the compressor emits the single range `"S!A1:B2"` - the scan turned a
corner (A1 extended down to A2, then right to B2) - and the multiset of
locations that range covers is A1, A2, B1, B2, which is not equal to the
input multiset: B1 is implied but was never in the input, so "no cell absent
from the input is implied" fails. -/
theorem claim_C1_counterexample :
    compress_cell_references [PyRef.tup "S" "A1", PyRef.tup "S" "A2", PyRef.tup "S" "B2"]
      = .ok ["S!A1:B2"] ∧
    compressBody [PyRef.tup "S" "A1", PyRef.tup "S" "A2", PyRef.tup "S" "B2"]
      = .ok [⟨"S", "A1", "B2"⟩] ∧
    ¬ (impliedAll [⟨"S", "A1", "B2"⟩]).Perm
        ([("S", "A1"), ("S", "A2"), ("S", "B2")].map locD) := by
  decide

/-- Claim C1 (amended): on the successful path, no input location is lost
and none is duplicated - the multiset of locations implied by the emitted
ranges is exactly the input multiset plus possibly extra covered cells
(which arise only when a chain turns a corner); on the fallback path the
output is one singleton expression per input, so preservation is exact
there. -/
theorem claim_C1_amended (refs : List (String × String)) (sr : List SRange)
    (h : compressBody (refs.map (fun sc => PyRef.tup sc.1 sc.2)) = .ok sr) :
    ∃ extra, (impliedAll sr : Multiset (String × Nat × Nat)) =
      ↑(refs.map locD) + extra := by
  obtain ⟨keyed, pairs, hk, hp, hcase⟩ := compressBody_cases h
  have hsnd : keyed.map Prod.snd = refs.map (fun sc => PyRef.tup sc.1 sc.2) :=
    keyed_spec _ _ hk
  have hperm : (sortRefs keyed).Perm keyed := List.perm_insertionSort _ _
  have hmem : ∀ p ∈ sortRefs keyed, ∃ sc : String × String,
      p.2 = PyRef.tup sc.1 sc.2 := by
    intro p hpmem
    have hink : p ∈ keyed := hperm.mem_iff.mp hpmem
    have hsin : p.2 ∈ keyed.map Prod.snd := List.mem_map_of_mem Prod.snd hink
    rw [hsnd] at hsin
    obtain ⟨sc, _, hsc⟩ := List.mem_map.mp hsin
    exact ⟨sc, hsc.symm⟩
  have hout := unpack_tup_spec _ _ hmem hp
  have hpermT : (pairs.map (fun sc => PyRef.tup sc.1 sc.2)).Perm
      (refs.map (fun sc => PyRef.tup sc.1 sc.2)) := by
    rw [hout, ← hsnd]
    exact hperm.map Prod.snd
  have hpermL : (pairs.map locD).Perm (refs.map locD) := by
    have hmap := hpermT.map (fun pr => match pr with
      | PyRef.tup s c => locD (s, c)
      | PyRef.str s => locD (s, s))
    simpa [List.map_map, Function.comp] using hmap
  rcases hcase with ⟨hpnil, hsrnil⟩ | ⟨s0, c0, rest, hpairs, hscan⟩
  · subst hsrnil
    subst hpnil
    refine ⟨0, ?_⟩
    have hnil : refs.map locD = [] := (List.Perm.nil_eq (by simpa using hpermL)).symm
    simp [impliedAll, hnil]
  · subst hpairs
    obtain ⟨extra, hex⟩ :=
      scan1_noLoss rest s0 c0 c0 {locPair c0} sr (Reach.base _) hscan
    refine ⟨extra, ?_⟩
    rw [hex]
    have hco : (↑(((s0, c0) :: rest).map locD) : Multiset (String × Nat × Nat)) =
        ↑(refs.map locD) := Multiset.coe_eq_coe.mpr hpermL
    rw [← hco]
    simp only [List.map_cons, ← Multiset.cons_coe, Multiset.map_singleton, locD]
    rw [← Multiset.singleton_add]
    abel

/-- Claim C1 (amended, witness): at the corner input A1, A2, B2 the implied
multiset is the input plus the extra fill cell B1. -/
theorem claim_C1_amended_witness :
    compressBody ([("S", "A1"), ("S", "A2"), ("S", "B2")].map
        (fun sc => PyRef.tup sc.1 sc.2)) = .ok [⟨"S", "A1", "B2"⟩] ∧
    ∃ extra, (impliedAll [⟨"S", "A1", "B2"⟩] : Multiset (String × Nat × Nat)) =
      ↑([("S", "A1"), ("S", "A2"), ("S", "B2")].map locD) + extra :=
  ⟨by decide, claim_C1_amended [("S", "A1"), ("S", "A2"), ("S", "B2")]
    [⟨"S", "A1", "B2"⟩] (by decide)⟩

/-- Claim C2 (counterexample): for the input locations A1, B1, B2 on one
sheet the compressor emits the single range `"S!A1:B2"`, whose endpoint
cells differ in both their column letters and their row numbers - a range
that is neither a vertical nor a horizontal run is emitted. -/
theorem claim_C2_counterexample :
    compress_cell_references [PyRef.tup "S" "A1", PyRef.tup "S" "B1", PyRef.tup "S" "B2"]
      = .ok ["S!A1:B2"] ∧
    compressBody [PyRef.tup "S" "A1", PyRef.tup "S" "B1", PyRef.tup "S" "B2"]
      = .ok [⟨"S", "A1", "B2"⟩] ∧
    ((cell_to_tuple "A1").1 ≠ (cell_to_tuple "B2").1 ∧
      (cell_to_tuple "A1").2 ≠ (cell_to_tuple "B2").2) := by
  decide

/-- Claim C2 (amended): every range emitted on the successful path is built
from single-step vertical or horizontal extensions, so its endpoints are
componentwise ordered - the end cell's column index and row are at least the
start cell's - but the endpoints may differ in both coordinates when the
chain turns a corner (the fallback path emits only singletons). -/
theorem claim_C2_amended (refs : List (String × String)) (sr : List SRange)
    (h : compressBody (refs.map (fun sc => PyRef.tup sc.1 sc.2)) = .ok sr) :
    ∀ r ∈ sr, (locPair r.startCell).1 ≤ (locPair r.endCell).1 ∧
      (locPair r.startCell).2 ≤ (locPair r.endCell).2 := by
  obtain ⟨keyed, pairs, hk, hp, hcase⟩ := compressBody_cases h
  rcases hcase with ⟨hpnil, hsrnil⟩ | ⟨s0, c0, rest, hpairs, hscan⟩
  · subst hsrnil
    intro r hr
    exact absurd hr (List.not_mem_nil r)
  · exact scan1_mono rest s0 c0 c0 sr (le_refl _) (le_refl _) hscan

/-- Claim C2 (amended, witness): at the corner input A1, B1, B2 the emitted
range A1:B2 has componentwise ordered endpoints. -/
theorem claim_C2_amended_witness :
    compressBody ([("S", "A1"), ("S", "B1"), ("S", "B2")].map
        (fun sc => PyRef.tup sc.1 sc.2)) = .ok [⟨"S", "A1", "B2"⟩] ∧
    ((locPair "A1").1 ≤ (locPair "B2").1 ∧ (locPair "A1").2 ≤ (locPair "B2").2) :=
  ⟨by decide, claim_C2_amended [("S", "A1"), ("S", "B1"), ("S", "B2")]
    [⟨"S", "A1", "B2"⟩] (by decide) ⟨"S", "A1", "B2"⟩ (by decide)⟩

/-! Machinery for the round-trip property: chains as ordered lists. -/

/-- A cell text is canonical when it is the canonical rendering of its own
abstract coordinate: column letters (a valid openpyxl column) followed by
the row digits.  Cell texts produced by the grid walker and by
decompression are canonical. -/
def Canonical (cell : String) : Prop :=
  1 ≤ (locPair cell).1 ∧ (locPair cell).1 ≤ 18278 ∧
    cell = colLetters (locPair cell).1 ++ toString (locPair cell).2

/-- Ordered chain of cell texts from `a` to `b`, each step moving down one
row or right one column (the two extension moves of the scan). -/
inductive ChainL : String → String → List String → Prop where
  | base (c : String) : ChainL c c [c]
  | down (a b : String) (l : List String) (h : ChainL a b l) (c : String)
      (hc : locPair c = ((locPair b).1, (locPair b).2 + 1)) : ChainL a c (l ++ [c])
  | right (a b : String) (l : List String) (h : ChainL a b l) (c : String)
      (hc : locPair c = ((locPair b).1 + 1, (locPair b).2)) : ChainL a c (l ++ [c])

theorem ChainL.mono {a b : String} {l : List String} (h : ChainL a b l) :
    (locPair a).1 ≤ (locPair b).1 ∧ (locPair a).2 ≤ (locPair b).2 := by
  induction h with
  | base => exact ⟨le_refl _, le_refl _⟩
  | down b l h c hc ih => rw [hc]; exact ⟨ih.1, le_trans ih.2 (Nat.le_succ _)⟩
  | right b l h c hc ih => rw [hc]; exact ⟨le_trans ih.1 (Nat.le_succ _), ih.2⟩

theorem rectPairs_self (p : Nat × Nat) : rectPairs p p = [p] := by
  simp [rectPairs, List.range']

theorem rectPairs_down {p q : Nat × Nat} (hcol : p.1 = q.1) (hrow : p.2 ≤ q.2) :
    rectPairs p (q.1, q.2 + 1) = rectPairs p q ++ [(q.1, q.2 + 1)] := by
  have h1 : q.1 + 1 - p.1 = 1 := by omega
  have h2 : q.2 + 1 + 1 - p.2 = (q.2 + 1 - p.2) + 1 := by omega
  have h3 : p.2 + 1 * (q.2 + 1 - p.2) = q.2 + 1 := by omega
  have hr : List.range' p.2 (q.2 + 1 - p.2 + 1) =
      List.range' p.2 (q.2 + 1 - p.2) ++ [q.2 + 1] := by
    rw [List.range'_concat, h3]
  simp only [rectPairs, h1, h2, hr]
  simp only [List.range', List.flatMap_cons, List.flatMap_nil, List.append_nil,
    List.map_append, List.map_cons, List.map_nil]
  rw [hcol]

theorem rectPairs_right {p q : Nat × Nat} (hrow : p.2 = q.2) (hcol : p.1 ≤ q.1) :
    rectPairs p (q.1 + 1, q.2) = rectPairs p q ++ [(q.1 + 1, q.2)] := by
  have h1 : q.2 + 1 - p.2 = 1 := by omega
  have h2 : q.1 + 1 + 1 - p.1 = (q.1 + 1 - p.1) + 1 := by omega
  have h3 : p.1 + 1 * (q.1 + 1 - p.1) = q.1 + 1 := by omega
  have hcl : List.range' p.1 (q.1 + 1 - p.1 + 1) =
      List.range' p.1 (q.1 + 1 - p.1) ++ [q.1 + 1] := by
    rw [List.range'_concat, h3]
  simp only [rectPairs, h1, h2, hcl]
  rw [List.flatMap_append]
  simp only [List.range', List.flatMap_cons, List.flatMap_nil, List.append_nil,
    List.map_cons, List.map_nil]
  rw [hrow]

/-- An aligned chain (endpoints sharing their column index or their row)
decompresses to exactly its own cells, in consumption order. -/
theorem chain_expand {a b : String} {l : List String} (h : ChainL a b l) :
    (∀ c ∈ l, Canonical c) →
    ((locPair a).1 = (locPair b).1 ∨ (locPair a).2 = (locPair b).2) →
    ∀ ss, expandOne ⟨ss, a, b⟩ = l.map (fun c => (ss, c)) := by
  induction h with
  | base =>
      intro hcanon _ ss
      obtain ⟨h1, h2, h3⟩ := hcanon a (by simp)
      simp only [expandOne, rectPairs_self, List.map_cons, List.map_nil]
      exact congrArg (fun z => [(ss, z)]) h3.symm
  | down b l h c hc ih =>
      intro hcanon haligned ss
      have hmono := h.mono
      have hcol : (locPair a).1 = (locPair b).1 := by
        rcases haligned with hx | hx
        · rw [hc] at hx
          exact hx
        · rw [hc] at hx
          simp only at hx
          omega
      have ihe := ih (fun x hx => hcanon x (List.mem_append_left _ hx)) (Or.inl hcol) ss
      obtain ⟨hc1, hc2, hc3⟩ := hcanon c (by simp)
      have hc3' : c = colLetters (locPair b).1 ++ toString ((locPair b).2 + 1) := by
        rw [hc] at hc3
        exact hc3
      simp only [expandOne] at ihe ⊢
      rw [hc, rectPairs_down hcol hmono.2, List.map_append, ihe]
      simp only [List.map_append, List.map_cons, List.map_nil]
      rw [← hc3']
  | right b l h c hc ih =>
      intro hcanon haligned ss
      have hmono := h.mono
      have hrow : (locPair a).2 = (locPair b).2 := by
        rcases haligned with hx | hx
        · rw [hc] at hx
          simp only at hx
          omega
        · rw [hc] at hx
          exact hx
      have ihe := ih (fun x hx => hcanon x (List.mem_append_left _ hx)) (Or.inr hrow) ss
      obtain ⟨hc1, hc2, hc3⟩ := hcanon c (by simp)
      have hc3' : c = colLetters ((locPair b).1 + 1) ++ toString (locPair b).2 := by
        rw [hc] at hc3
        exact hc3
      simp only [expandOne] at ihe ⊢
      rw [hc, rectPairs_right hrow hmono.1, List.map_append, ihe]
      simp only [List.map_append, List.map_cons, List.map_nil]
      rw [← hc3']

/-- The scan is expansion-faithful when every emitted range is aligned: the
decompression of the output is exactly the chain already absorbed (paired
with the open range's sheet) followed by the locations not yet consumed. -/
theorem scan1_expand :
    ∀ (rest : List (String × String)) (ss sc ec : String) (chain : List String)
      (sr : List SRange),
      ChainL sc ec chain →
      (∀ c ∈ chain, Canonical c) →
      (∀ p ∈ rest, Canonical p.2) →
      scan1 ss sc ec rest = .ok sr →
      (∀ r ∈ sr, (locPair r.startCell).1 = (locPair r.endCell).1 ∨
        (locPair r.startCell).2 = (locPair r.endCell).2) →
      expandStruct sr = chain.map (fun c => (ss, c)) ++ rest := by
  intro rest
  induction rest with
  | nil =>
      intro ss sc ec chain sr hchain hcanon _ h haligned
      simp only [scan1, Except.ok.injEq] at h
      subst h
      have hal := haligned ⟨ss, sc, ec⟩ (by simp)
      have hexp := chain_expand hchain hcanon hal ss
      simp only [expandStruct, List.flatMap_cons, List.flatMap_nil, List.append_nil]
      rw [hexp]
  | cons hd rest ih =>
      intro ss sc ec chain sr hchain hcanon hrestc h haligned
      obtain ⟨sheet, cell⟩ := hd
      have hcellc : Canonical cell := hrestc (sheet, cell) (by simp)
      have hrest' : ∀ p ∈ rest, Canonical p.2 :=
        fun p hp => hrestc p (List.mem_cons_of_mem _ hp)
      simp only [scan1] at h
      by_cases hs : sheet = ss
      · subst hs
        rw [if_pos rfl] at h
        by_cases hv : (cell_to_tuple cell).1 = (cell_to_tuple ec).1 ∧
            (cell_to_tuple cell).2 = (cell_to_tuple ec).2 + 1
        · rw [if_pos hv] at h
          have hstep : locPair cell = ((locPair ec).1, (locPair ec).2 + 1) := by
            simp only [locPair]
            rw [hv.1, hv.2]
          have hchain' : ChainL sc cell (chain ++ [cell]) :=
            ChainL.down _ _ _ hchain cell hstep
          have hcanon' : ∀ c ∈ chain ++ [cell], Canonical c := by
            intro c hcm
            rcases List.mem_append.mp hcm with hcm | hcm
            · exact hcanon c hcm
            · rw [List.mem_singleton] at hcm
              subst hcm
              exact hcellc
          have hexp := ih sheet sc cell (chain ++ [cell]) sr hchain' hcanon' hrest' h
            haligned
          rw [hexp, List.map_append]
          simp [List.append_assoc]
        · rw [if_neg hv] at h
          by_cases hrow : (cell_to_tuple cell).2 = (cell_to_tuple ec).2
          · rw [if_pos hrow] at h
            cases hci : column_index_from_string (cell_to_tuple cell).1 with
            | error u =>
                rw [hci] at h
                simp only [except_bind_err] at h
                exact absurd h (by simp)
            | ok ci =>
                rw [hci] at h
                simp only [except_bind_ok] at h
                cases hei : column_index_from_string (cell_to_tuple ec).1 with
                | error u =>
                    rw [hei] at h
                    simp only [except_bind_err] at h
                    exact absurd h (by simp)
                | ok ei =>
                    rw [hei] at h
                    simp only [except_bind_ok] at h
                    by_cases hstep : ci = ei + 1
                    · rw [if_pos hstep] at h
                      have hstep' : locPair cell = ((locPair ec).1 + 1, (locPair ec).2) := by
                        have hc1 : colIdxD (cell_to_tuple cell).1 = ci := by
                          simp [colIdxD, hci]
                        have he1 : colIdxD (cell_to_tuple ec).1 = ei := by
                          simp [colIdxD, hei]
                        simp only [locPair, hc1, he1, hstep, hrow]
                      have hchain' : ChainL sc cell (chain ++ [cell]) :=
                        ChainL.right _ _ _ hchain cell hstep'
                      have hcanon' : ∀ c ∈ chain ++ [cell], Canonical c := by
                        intro c hcm
                        rcases List.mem_append.mp hcm with hcm | hcm
                        · exact hcanon c hcm
                        · rw [List.mem_singleton] at hcm
                          subst hcm
                          exact hcellc
                      have hexp := ih sheet sc cell (chain ++ [cell]) sr hchain'
                        hcanon' hrest' h haligned
                      rw [hexp, List.map_append]
                      simp [List.append_assoc]
                    · rw [if_neg hstep] at h
                      cases hrec : scan1 sheet cell cell rest with
                      | error u =>
                          rw [hrec] at h
                          simp only [except_bind_err] at h
                          exact absurd h (by simp)
                      | ok rs =>
                          rw [hrec] at h
                          simp only [except_bind_ok, Except.ok.injEq] at h
                          subst h
                          have hal0 := haligned ⟨sheet, sc, ec⟩ (List.mem_cons_self _ _)
                          have hexp0 := chain_expand hchain hcanon hal0 sheet
                          have hexp := ih sheet cell cell [cell] rs (ChainL.base cell)
                            (by
                              intro c hcm
                              rw [List.mem_singleton] at hcm
                              subst hcm
                              exact hcellc)
                            hrest' hrec
                            (fun r hr => haligned r (List.mem_cons_of_mem _ hr))
                          simp only [expandStruct, List.flatMap_cons] at hexp ⊢
                          rw [hexp0, hexp]
                          simp [List.append_assoc]
          · rw [if_neg hrow] at h
            cases hrec : scan1 sheet cell cell rest with
            | error u =>
                rw [hrec] at h
                simp only [except_bind_err] at h
                exact absurd h (by simp)
            | ok rs =>
                rw [hrec] at h
                simp only [except_bind_ok, Except.ok.injEq] at h
                subst h
                have hal0 := haligned ⟨sheet, sc, ec⟩ (List.mem_cons_self _ _)
                have hexp0 := chain_expand hchain hcanon hal0 sheet
                have hexp := ih sheet cell cell [cell] rs (ChainL.base cell)
                  (by
                    intro c hcm
                    rw [List.mem_singleton] at hcm
                    subst hcm
                    exact hcellc)
                  hrest' hrec
                  (fun r hr => haligned r (List.mem_cons_of_mem _ hr))
                simp only [expandStruct, List.flatMap_cons] at hexp ⊢
                rw [hexp0, hexp]
                simp [List.append_assoc]
      · rw [if_neg hs] at h
        cases hrec : scan1 sheet cell cell rest with
        | error u =>
            rw [hrec] at h
            simp only [except_bind_err] at h
            exact absurd h (by simp)
        | ok rs =>
            rw [hrec] at h
            simp only [except_bind_ok, Except.ok.injEq] at h
            subst h
            have hal0 := haligned ⟨ss, sc, ec⟩ (List.mem_cons_self _ _)
            have hexp0 := chain_expand hchain hcanon hal0 ss
            have hexp := ih sheet cell cell [cell] rs (ChainL.base cell)
              (by
                intro c hcm
                rw [List.mem_singleton] at hcm
                subst hcm
                exact hcellc)
              hrest' hrec
              (fun r hr => haligned r (List.mem_cons_of_mem _ hr))
            simp only [expandStruct, List.flatMap_cons] at hexp ⊢
            rw [hexp0, hexp]
            simp [List.append_assoc]

theorem keyed_spec_keys :
    ∀ (l : List PyRef) (out : List ((String × Nat × Nat) × PyRef)),
      pyMapM (fun r => do
        let k ← sortKey r
        pure (k, r)) l = .ok out →
      ∀ p ∈ out, sortKey p.2 = .ok p.1 := by
  intro l
  induction l with
  | nil =>
      intro out h
      simp only [pyMapM, Except.ok.injEq] at h
      subst h
      intro p hp
      exact absurd hp (List.not_mem_nil p)
  | cons a l ih =>
      intro out h
      simp only [pyMapM] at h
      cases hk : sortKey a with
      | error u =>
          rw [hk] at h
          simp only [except_bind_err] at h
          exact absurd h (by simp)
      | ok k =>
          rw [hk] at h
          simp only [except_bind_ok] at h
          cases hrest : pyMapM (fun r => do
              let k ← sortKey r
              pure (k, r)) l with
          | error u =>
              rw [hrest] at h
              simp only [except_bind_err] at h
              exact absurd h (by simp)
          | ok outl =>
              rw [hrest] at h
              simp only [except_bind_ok, except_bind_pure, Except.ok.injEq] at h
              subst h
              intro p hp
              rcases List.mem_cons.mp hp with he | hm
              · subst he
                exact hk
              · exact ih outl hrest p hm

theorem keyed_exists :
    ∀ (l : List PyRef), (∀ r ∈ l, ∃ k, sortKey r = .ok k) →
      ∃ out, pyMapM (fun r => do
        let k ← sortKey r
        pure (k, r)) l = .ok out := by
  intro l
  induction l with
  | nil => exact fun _ => ⟨[], rfl⟩
  | cons a l ih =>
      intro hall
      obtain ⟨k, hk⟩ := hall a (List.mem_cons_self a l)
      obtain ⟨outl, houtl⟩ := ih (fun r hr => hall r (List.mem_cons_of_mem a hr))
      refine ⟨(k, a) :: outl, ?_⟩
      simp only [pyMapM, hk, except_bind_ok, houtl, except_bind_pure]

theorem keyed_determined :
    ∀ (l₁ l₂ : List ((String × Nat × Nat) × PyRef)),
      l₁.map Prod.snd = l₂.map Prod.snd →
      (∀ p ∈ l₁, sortKey p.2 = .ok p.1) →
      (∀ p ∈ l₂, sortKey p.2 = .ok p.1) →
      l₁ = l₂ := by
  intro l₁
  induction l₁ with
  | nil =>
      intro l₂ hmap _ _
      cases l₂ with
      | nil => rfl
      | cons b l => simp at hmap
  | cons a l ih =>
      intro l₂ hmap h1 h2
      cases l₂ with
      | nil => simp at hmap
      | cons b l₂' =>
          simp only [List.map_cons, List.cons.injEq] at hmap
          have hsa := h1 a (List.mem_cons_self a l)
          have hsb := h2 b (List.mem_cons_self b l₂')
          rw [hmap.1] at hsa
          rw [hsa] at hsb
          have hfst : a.1 = b.1 := by
            injection hsb
          have hab : a = b := Prod.ext hfst hmap.1
          rw [hab, ih l₂' hmap.2 (fun p hp => h1 p (List.mem_cons_of_mem a hp))
            (fun p hp => h2 p (List.mem_cons_of_mem b hp))]

/-- Claim C8 (counterexample): compressing A1, A2, B2 yields the
corner-turning range `"S!A1:B2"`; the cell locations that output denotes
are A1, A2, B1, B2, and compressing them yields the different output
`["S!A1:A2", "S!B1:B2"]` - the round trip is not stable. -/
theorem claim_C8_counterexample :
    compress_cell_references [PyRef.tup "S" "A1", PyRef.tup "S" "A2", PyRef.tup "S" "B2"]
      = .ok ["S!A1:B2"] ∧
    compressBody [PyRef.tup "S" "A1", PyRef.tup "S" "A2", PyRef.tup "S" "B2"]
      = .ok [⟨"S", "A1", "B2"⟩] ∧
    expandStruct [⟨"S", "A1", "B2"⟩]
      = [("S", "A1"), ("S", "A2"), ("S", "B1"), ("S", "B2")] ∧
    compress_cell_references
        ((expandStruct [⟨"S", "A1", "B2"⟩]).map (fun sc => PyRef.tup sc.1 sc.2))
      = .ok ["S!A1:A2", "S!B1:B2"] ∧
    (["S!A1:A2", "S!B1:B2"] : List String) ≠ ["S!A1:B2"] := by
  decide

/-- Claim C8 (amended): the round trip is stable on the class of outputs the
claim's reasoning presumes: if the input cells are canonical (column letters
followed by row digits) and every emitted range is axis-aligned (endpoints
sharing their column index or their row), then re-compressing the
decompressed locations of the output reproduces the output exactly; when a
range turns a corner (or cells are spelled non-canonically) the round trip
can differ, as the counterexample shows. -/
theorem claim_C8_amended (refs : List (String × String)) (sr : List SRange)
    (hcanon : ∀ p ∈ refs, Canonical p.2)
    (h : compressBody (refs.map (fun sc => PyRef.tup sc.1 sc.2)) = .ok sr)
    (haligned : ∀ r ∈ sr, (locPair r.startCell).1 = (locPair r.endCell).1 ∨
      (locPair r.startCell).2 = (locPair r.endCell).2) :
    compressBody ((expandStruct sr).map (fun sc => PyRef.tup sc.1 sc.2)) = .ok sr ∧
    compress_cell_references ((expandStruct sr).map (fun sc => PyRef.tup sc.1 sc.2)) =
      compress_cell_references (refs.map (fun sc => PyRef.tup sc.1 sc.2)) := by
  obtain ⟨keyed, pairs, hk, hp, hcase⟩ := compressBody_cases h
  have hsnd : keyed.map Prod.snd = refs.map (fun sc => PyRef.tup sc.1 sc.2) :=
    keyed_spec _ _ hk
  have hkeys : ∀ p ∈ keyed, sortKey p.2 = .ok p.1 := keyed_spec_keys _ _ hk
  have hperm : (sortRefs keyed).Perm keyed := List.perm_insertionSort _ _
  have hkeys' : ∀ p ∈ sortRefs keyed, sortKey p.2 = .ok p.1 :=
    fun p hp2 => hkeys p (hperm.mem_iff.mp hp2)
  have hmem : ∀ p ∈ sortRefs keyed, ∃ sc : String × String,
      p.2 = PyRef.tup sc.1 sc.2 := by
    intro p hpmem
    have hink : p ∈ keyed := hperm.mem_iff.mp hpmem
    have hsin : p.2 ∈ keyed.map Prod.snd := List.mem_map_of_mem Prod.snd hink
    rw [hsnd] at hsin
    obtain ⟨sc, _, hsc⟩ := List.mem_map.mp hsin
    exact ⟨sc, hsc.symm⟩
  have hout := unpack_tup_spec _ _ hmem hp
  have hpairsc : ∀ q ∈ pairs, Canonical q.2 := by
    intro q hq
    have h1 : PyRef.tup q.1 q.2 ∈ pairs.map (fun sc => PyRef.tup sc.1 sc.2) := by
      simpa using List.mem_map_of_mem (fun sc : String × String =>
        PyRef.tup sc.1 sc.2) hq
    rw [hout] at h1
    have h2 : PyRef.tup q.1 q.2 ∈ keyed.map Prod.snd :=
      ((hperm.map Prod.snd).mem_iff).mp h1
    rw [hsnd] at h2
    obtain ⟨sc, hscm, hsce⟩ := List.mem_map.mp h2
    have he2 : sc.2 = q.2 := by
      injection hsce
    rw [← he2]
    exact hcanon sc hscm
  rcases hcase with ⟨hpnil, hsrnil⟩ | ⟨s0, c0, rest, hpairs, hscan⟩
  · subst hsrnil
    subst hpnil
    have hsknil : sortRefs keyed = [] := by
      have := hout.symm
      simp only [List.map_nil] at this
      exact List.map_eq_nil_iff.mp this
    have hknil : keyed = [] := by
      have := hperm
      rw [hsknil] at this
      exact (this.nil_eq).symm
    have hrefs : refs = [] := by
      rw [hknil] at hsnd
      simp only [List.map_nil] at hsnd
      cases refs with
      | nil => rfl
      | cons a l => simp at hsnd
    subst hrefs
    exact ⟨rfl, rfl⟩
  · subst hpairs
    have hc0 : Canonical c0 := hpairsc (s0, c0) (List.mem_cons_self _ _)
    have hrestc : ∀ p ∈ rest, Canonical p.2 :=
      fun p hp2 => hpairsc p (List.mem_cons_of_mem _ hp2)
    have hexpand : expandStruct sr = [c0].map (fun c => (s0, c)) ++ rest :=
      scan1_expand rest s0 c0 c0 [c0] sr (ChainL.base c0)
        (by
          intro c hcm
          rw [List.mem_singleton] at hcm
          subst hcm
          exact hc0)
        hrestc hscan haligned
    have hexpand' : expandStruct sr = (s0, c0) :: rest := by simpa using hexpand
    have hkeyex : ∀ r ∈ (expandStruct sr).map (fun sc => PyRef.tup sc.1 sc.2),
        ∃ k, sortKey r = .ok k := by
      intro r hr
      rw [hexpand'] at hr
      rw [hout] at hr
      obtain ⟨p, hpm, hpe⟩ := List.mem_map.mp hr
      exact ⟨p.1, hpe ▸ hkeys' p hpm⟩
    obtain ⟨keyed2, hk2⟩ := keyed_exists _ hkeyex
    have hsnd2 : keyed2.map Prod.snd =
        (expandStruct sr).map (fun sc => PyRef.tup sc.1 sc.2) := keyed_spec _ _ hk2
    have hkeys2 : ∀ p ∈ keyed2, sortKey p.2 = .ok p.1 := keyed_spec_keys _ _ hk2
    have hdet : keyed2 = sortRefs keyed := by
      refine keyed_determined _ _ ?_ hkeys2 hkeys'
      rw [hsnd2, hexpand', hout]
    have hsorted : List.Sorted pkeyLE (sortRefs keyed) :=
      List.sorted_insertionSort pkeyLE keyed
    have hidem : sortRefs (sortRefs keyed) = sortRefs keyed :=
      hsorted.insertionSort_eq
    have hbody2 : compressBody ((expandStruct sr).map
        (fun sc => PyRef.tup sc.1 sc.2)) = .ok sr := by
      unfold compressBody
      rw [hk2]
      simp only [except_bind_ok]
      rw [hdet]
      show (do
        let pairs2 ← pyMapM (fun p => p.2.unpack2) (sortRefs (sortRefs keyed))
        match pairs2 with
        | [] => Except.ok []
        | (s0, c0) :: rest => scan1 s0 c0 c0 rest) = Except.ok sr
      rw [hidem, hp]
      simp only [except_bind_ok]
      exact hscan
    refine ⟨hbody2, ?_⟩
    have he1 : ((expandStruct sr).map (fun sc => PyRef.tup sc.1 sc.2)).isEmpty
        = false := by
      rw [hexpand']
      rfl
    have he2 : (refs.map (fun sc => PyRef.tup sc.1 sc.2)).isEmpty = false := by
      cases hre : refs with
      | nil =>
          exfalso
          rw [hre] at hsnd
          simp only [List.map_nil] at hsnd
          have hknil : keyed = [] := by
            cases keyed with
            | nil => rfl
            | cons a l => simp at hsnd
          rw [hknil] at hperm
          have hsknil : sortRefs ([] : List ((String × Nat × Nat) × PyRef)) = [] := rfl
          rw [hknil, hsknil] at hout
          simp at hout
      | cons a l => rfl
    unfold compress_cell_references
    rw [he1, he2, hbody2, h]

/-- Witness for claim C8 (amended): a concrete run on the canonical input
A1, A2 whose output is the single axis-aligned range `"S!A1:A2"`, with both
hypotheses discharged by `decide` and the conclusion instantiated. -/
theorem claim_C8_amended_witness :
    compressBody (([("S", "A1"), ("S", "A2")] : List (String × String)).map
        (fun sc => PyRef.tup sc.1 sc.2)) = .ok [⟨"S", "A1", "A2"⟩] ∧
    (compressBody ((expandStruct [⟨"S", "A1", "A2"⟩]).map
        (fun sc => PyRef.tup sc.1 sc.2)) = .ok [⟨"S", "A1", "A2"⟩] ∧
      compress_cell_references ((expandStruct [⟨"S", "A1", "A2"⟩]).map
          (fun sc => PyRef.tup sc.1 sc.2)) =
        compress_cell_references (([("S", "A1"), ("S", "A2")] :
            List (String × String)).map (fun sc => PyRef.tup sc.1 sc.2))) :=
  ⟨by decide,
    claim_C8_amended [("S", "A1"), ("S", "A2")] [⟨"S", "A1", "A2"⟩]
      (by
        intro p hp
        fin_cases hp <;> exact ⟨by decide, by decide, by decide⟩)
      (by decide) (by decide)⟩
